import Mathlib

/-!
CHIP-8 interpreter (`main.c`): embedding and verified properties.

The machine state of `main.c` (the global `struct CPU cpu`, the framebuffer
`screenData`, the keypad vector `keyboard` and the flag `SCREEN_IS_CUR`) is
embedded as explicit state.  C arrays are maps from the index to the stored
value; an index beyond the declared bound lies outside the C object and is kept
apart from every cell inside it, so a definition describes the C code only
while its accesses are in range.  The statements below carry the bounds under
which the accesses they describe are inside the arrays: bounds on `I` and `sp`
for single instructions, `InBounds` for whole runs.
`unsigned char` and `unsigned short` arithmetic is taken modulo `2^8` and
`2^16` at every place where the C code can wrap.
-/

namespace Chip8

/-! ## State -/

/-- The record `struct CPU` of `main.c`. -/
structure CPU where
  /-- Cells `memory[0..4095]`, each an `unsigned char`. -/
  memory : Nat → Nat
  /-- Registers `V[0..15]`, each an `unsigned char`. -/
  V : Nat → Nat
  /-- Address register, an `unsigned short`. -/
  I : Nat
  /-- Delay timer, an `unsigned char`. -/
  delay : Nat
  /-- Sound timer, an `unsigned char`. -/
  sound : Nat
  /-- Program counter, an `unsigned short`. -/
  pc : Nat
  /-- Slots `stack[0..15]`, each an `unsigned short`. -/
  stack : Nat → Nat
  /-- Stack pointer, an `unsigned char`. -/
  sp : Nat

/-- The globals of `main.c` that the interpreter reads and writes. -/
structure Machine where
  /-- The global `cpu`. -/
  cpu : CPU
  /-- Framebuffer `screenData[32][64]`, indexed by row and then column. -/
  screenData : Nat → Nat → Nat
  /-- Keypad vector `keyboard[16]` of C `int`s. -/
  keyboard : Nat → Int
  /-- Zero when the screen has to be flipped. -/
  SCREEN_IS_CUR : Int

/-- Array store `a[i] = v`. -/
def setAt (a : Nat → Nat) (i v : Nat) : Nat → Nat :=
  fun k => if k = i then v else a k

/-- Two-dimensional array store `a[r][c] = v`. -/
def setCell (a : Nat → Nat → Nat) (r c v : Nat) : Nat → Nat → Nat :=
  fun r' c' => if r' = r ∧ c' = c then v else a r' c'

/-- The loop `for (i = 0; i < n; i++) body`, as a state transformer:
iteration `0` runs first and iteration `n - 1` last. -/
def forLoop {σ : Type} (body : Nat → σ → σ) : Nat → σ → σ
  | 0, s => s
  | k + 1, s => body k (forLoop body k s)

/-- Conversion of an integer result to `unsigned char`. -/
def toU8 (z : Int) : Nat := (z % 256).toNat

/-! ## Opcode deconstruction -/

/-- Index of the register that the pointer `s_x(opcode)` addresses. -/
def s_x (opcode : Nat) : Nat := (opcode >>> 8) &&& 0xF

/-- Index of the register that the pointer `s_y(opcode)` addresses. -/
def s_y (opcode : Nat) : Nat := (opcode >>> 4) &&& 0xF

/-- Low twelve bits of the opcode. -/
def s_nnn (opcode : Nat) : Nat := opcode &&& 0xFFF

/-- Low nibble of the opcode. -/
def s_n (opcode : Nat) : Nat := opcode &&& 0xF

/-- Low byte of the opcode. -/
def s_kk (opcode : Nat) : Nat := opcode &&& 0xFF

/-! ## Register, memory and program-counter stores -/

/-- Store `cpu.V[i] = v`. -/
def setV (m : Machine) (i v : Nat) : Machine :=
  { m with cpu := { m.cpu with V := setAt m.cpu.V i v } }

/-- Store `cpu.memory[a] = v`. -/
def setMem (m : Machine) (a v : Nat) : Machine :=
  { m with cpu := { m.cpu with memory := setAt m.cpu.memory a v } }

/-- Store `cpu.pc = v`. -/
def setPc (m : Machine) (v : Nat) : Machine :=
  { m with cpu := { m.cpu with pc := v } }

/-- Statement `cpu.pc += 2` on an `unsigned short`. -/
def skip (m : Machine) : Machine := setPc m ((m.cpu.pc + 2) % 65536)

/-! ## Display -/

/-- Body of the inner loop of `drawSprite`: column `i` of row `j`, whose byte
is `c`.  The flag register is assigned the cell's value before the cell is
XORed. -/
def drawPixel (x y j c i : Nat) (m : Machine) : Machine :=
  let bit := (c >>> (8 - i - 1)) &&& 1
  if bit ≠ 0 then
    let m1 := setV m 0xF (m.screenData ((y + j) % 32) ((x + i) % 64))
    let m2 := { m1 with
      screenData := setCell m1.screenData ((y + j) % 32) ((x + i) % 64)
        (m1.screenData ((y + j) % 32) ((x + i) % 64) ^^^ bit) }
    { m2 with SCREEN_IS_CUR := 0 }
  else m

/-- Body of the outer loop of `drawSprite`: row `j`. -/
def drawRow (x y j : Nat) (m : Machine) : Machine :=
  let c := m.cpu.memory (m.cpu.I + j)
  forLoop (drawPixel x y j c) 8 m

/-- The function `drawSprite(x, y, n)`; its only caller passes register values
for `x` and `y` and a nibble for `n`. -/
def drawSprite (x y n : Nat) (m : Machine) : Machine :=
  forLoop (drawRow x y) n m

/-- The function `flipScreen`: the rendering is outside the machine state, the
flag is set back to one. -/
def flipScreen (m : Machine) : Machine := { m with SCREEN_IS_CUR := 1 }

/-- The function `cls`: every cell of the 32 by 64 array is zeroed, then the
screen is flipped. -/
def cls (m : Machine) : Machine :=
  flipScreen { m with
    screenData := fun r c => if r < 32 ∧ c < 64 then 0 else m.screenData r c }

/-! ## The instruction cycle -/

/-- The instruction word `(memory[pc] << 8) | memory[pc+1]`, stored in an
`unsigned short`. -/
def fetch (m : Machine) : Nat :=
  ((m.cpu.memory m.cpu.pc <<< 8) ||| m.cpu.memory (m.cpu.pc + 1)) % 65536

/-- Case `0x0000` of the dispatch.  The read `cpu.stack[cpu.sp]` of the return
is inside `stack[16]` when `0 < sp ≤ 16` before the decrement; `accessInRange`
records that condition. -/
def op0 (instruction : Nat) (m : Machine) : Machine :=
  let m1 := if instruction = 0x00E0 then cls m else m
  if instruction = 0x00EE then
    let m2 := { m1 with cpu := { m1.cpu with sp := toU8 ((m1.cpu.sp : Int) - 1) } }
    setPc m2 (m2.cpu.stack m2.cpu.sp)
  else m1

/-- Case `0x2000` of the dispatch.  The store `cpu.stack[cpu.sp] = cpu.pc` is
inside `stack[16]` when `sp < 16`; for a larger `sp` the C store leaves the
array, and this definition then describes only the array, not what the store
overwrites.  `accessInRange` records the condition. -/
def op2 (instruction : Nat) (m : Machine) : Machine :=
  let m1 := { m with cpu := { m.cpu with stack := setAt m.cpu.stack m.cpu.sp m.cpu.pc } }
  let m2 := { m1 with cpu := { m1.cpu with sp := (m1.cpu.sp + 1) % 256 } }
  setPc m2 (s_nnn instruction)

/-- Case `0x8000` of the dispatch: the inner switch on the low nibble.  Every
statement reads the registers through the index the pointer addresses, in the
order of the source. -/
def op8 (instruction : Nat) (m : Machine) : Machine :=
  let x := s_x instruction
  let y := s_y instruction
  let k := instruction &&& 0xF
  if k = 0x0 then setV m x (m.cpu.V y)
  else if k = 0x1 then setV m x (m.cpu.V x ||| m.cpu.V y)
  else if k = 0x2 then setV m x (m.cpu.V x &&& m.cpu.V y)
  else if k = 0x3 then setV m x (m.cpu.V x ^^^ m.cpu.V y)
  else if k = 0x4 then
    let result := m.cpu.V x + m.cpu.V y
    let m1 := setV m 0xF (if result > 255 then 1 else 0)
    setV m1 x ((m1.cpu.V x + m1.cpu.V y) % 256)
  else if k = 0x5 then
    let m1 := setV m 0xF (if m.cpu.V x > m.cpu.V y then 1 else 0)
    setV m1 x (toU8 ((m1.cpu.V x : Int) - (m1.cpu.V y : Int)))
  else if k = 0x6 then
    let m1 := setV m 0xF (m.cpu.V x &&& 1)
    setV m1 x (m1.cpu.V x >>> 1)
  else if k = 0x7 then
    let m1 := setV m 0xF (if m.cpu.V y > m.cpu.V x then 1 else 0)
    setV m1 x (toU8 ((m1.cpu.V y : Int) - (m1.cpu.V x : Int)))
  else if k = 0xE then
    let m1 := setV m 0xF ((m.cpu.V x &&& (1 <<< 7)) >>> 7)
    setV m1 x ((m1.cpu.V x <<< 1) % 256)
  else m

/-- Case `0xF000` of the dispatch: the inner switch on the low byte.  The
accesses `cpu.memory[cpu.I + i]` of `Fx33`, `Fx55` and `Fx65` are inside
`memory[4096]` when `I + 2 ≤ 4095`, respectively `I + x ≤ 4096`; beyond that
the C accesses leave the array, and this definition then describes only the
array.  `accessInRange` records the conditions. -/
def opF (instruction : Nat) (m : Machine) : Machine :=
  let x := s_x instruction
  let k := instruction &&& 0xFF
  if k = 0x07 then setV m x m.cpu.delay
  else if k = 0x0A then m
  else if k = 0x15 then { m with cpu := { m.cpu with delay := m.cpu.V x } }
  else if k = 0x18 then { m with cpu := { m.cpu with sound := m.cpu.V x } }
  else if k = 0x1E then { m with cpu := { m.cpu with I := (m.cpu.I + m.cpu.V x) % 65536 } }
  else if k = 0x29 then { m with cpu := { m.cpu with I := (0x05 * m.cpu.V x) % 65536 } }
  else if k = 0x33 then
    let result := m.cpu.V x
    let m1 := setMem m (m.cpu.I + 2) (result % 10)
    let result := result / 10
    let m2 := setMem m1 (m1.cpu.I + 1) (result % 10)
    let result := result / 10
    setMem m2 m2.cpu.I (result % 10)
  else if k = 0x55 then
    let result := x
    forLoop (fun i s => setMem s (s.cpu.I + i) (s.cpu.V i)) result m
  else if k = 0x65 then
    let result := x
    forLoop (fun i s => setV s i (s.cpu.memory (s.cpu.I + i))) result m
  else m

/-- Case `0xE000` of the dispatch, which has no `break` after its two tests
and so continues into case `0xF000`. -/
def opE (instruction : Nat) (m : Machine) : Machine :=
  if instruction &&& 0xF = 0xE then
    if m.keyboard (m.cpu.V (s_x instruction)) ≠ 0 then skip m else m
  else if instruction &&& 0xF = 0x1 then
    if m.keyboard (m.cpu.V (s_x instruction)) = 0 then skip m else m
  else opF instruction m

/-- The switch of `cycle` on `instruction & 0xF000`, run after the program
counter has been advanced; `rnd` is the value that `rand()` returns. -/
def execute (rnd instruction : Nat) (m : Machine) : Machine :=
  let h := instruction &&& 0xF000
  let x := s_x instruction
  let y := s_y instruction
  if h = 0x0000 then op0 instruction m
  else if h = 0x1000 then setPc m (s_nnn instruction)
  else if h = 0x2000 then op2 instruction m
  else if h = 0x3000 then (if m.cpu.V x = s_kk instruction then skip m else m)
  else if h = 0x4000 then (if m.cpu.V x ≠ s_kk instruction then skip m else m)
  else if h = 0x5000 then (if m.cpu.V x = m.cpu.V y then skip m else m)
  else if h = 0x6000 then setV m x (s_kk instruction)
  else if h = 0x7000 then setV m x ((m.cpu.V x + s_kk instruction) % 256)
  else if h = 0x8000 then op8 instruction m
  else if h = 0x9000 then (if m.cpu.V x ≠ m.cpu.V y then skip m else m)
  else if h = 0xA000 then { m with cpu := { m.cpu with I := s_nnn instruction } }
  else if h = 0xB000 then setPc m ((m.cpu.V 0 + s_nnn instruction) % 65536)
  else if h = 0xC000 then setV m x (rnd &&& 0xFFFF &&& s_kk instruction)
  else if h = 0xD000 then drawSprite (m.cpu.V x) (m.cpu.V y) (s_n instruction) m
  else if h = 0xE000 then opE instruction m
  else if h = 0xF000 then opF instruction m
  else m

/-- The function `cycle`: fetch, advance the program counter, dispatch. -/
def cycle (rnd : Nat) (m : Machine) : Machine :=
  let instruction := fetch m
  execute rnd instruction (skip m)

/-- The timer statements at the end of one pass of `executionLoop`. -/
def tickTimers (m : Machine) : Machine :=
  let m1 := if m.cpu.delay > 0 then { m with cpu := { m.cpu with delay := m.cpu.delay - 1 } } else m
  if m1.cpu.sound > 0 then { m1 with cpu := { m1.cpu with sound := m1.cpu.sound - 1 } } else m1

/-- One pass of the `while (!quit)` loop of `executionLoop`: the event polling
leaves some keypad vector `keys`, then `cycle` runs, the screen is flipped when
`SCREEN_IS_CUR` is zero, and the timer statements run. -/
def loopPass (keys : Nat → Int) (rnd : Nat) (m : Machine) : Machine :=
  let m1 := cycle rnd { m with keyboard := keys }
  let m2 := if m1.SCREEN_IS_CUR = 0 then flipScreen m1 else m1
  tickTimers m2

/-- The first `n` passes of `executionLoop`; pass `k` sees the keypad vector
`keys k` and the value `rnds k` of `rand()`. -/
def executionLoop (keys : Nat → Nat → Int) (rnds : Nat → Nat) (n : Nat) (m : Machine) : Machine :=
  forLoop (fun k s => loopPass (keys k) (rnds k) s) n m

/-- The array accesses of the register case (`0xF000` switch) on the word
`instruction` are inside `memory[4096]`: `Fx33` touches `memory[I .. I+2]`,
`Fx55` and `Fx65` touch `memory[I .. I+x-1]`. -/
def regsInRange (instruction : Nat) (m : Machine) : Bool :=
  let k := instruction &&& 0xFF
  if k = 0x33 then decide (m.cpu.I + 2 ≤ 4095)
  else if k = 0x55 ∨ k = 0x65 then
    decide (s_x instruction = 0 ∨ m.cpu.I + s_x instruction ≤ 4096)
  else true

/-- Every array access that the dispatch of `instruction` makes in the state
`m` (the program counter already advanced) has its index inside the array:
`00EE` reads `stack[sp - 1]`, `2nnn` writes `stack[sp]`, `Dxyn` reads
`memory[I .. I+n-1]`, the two key tests read `keyboard[Vx]`, and the register
case is as in `regsInRange`.  Register and framebuffer indices are always in
range (nibbles, and coordinates reduced modulo 32 and 64). -/
def accessInRange (instruction : Nat) (m : Machine) : Bool :=
  let h := instruction &&& 0xF000
  if h = 0x0000 then
    (if instruction = 0x00EE then decide (0 < m.cpu.sp ∧ m.cpu.sp ≤ 16) else true)
  else if h = 0x2000 then decide (m.cpu.sp < 16)
  else if h = 0xD000 then
    decide (s_n instruction = 0 ∨ m.cpu.I + s_n instruction ≤ 4096)
  else if h = 0xE000 then
    (if instruction &&& 0xF = 0xE ∨ instruction &&& 0xF = 0x1 then
      decide (m.cpu.V (s_x instruction) ≤ 15)
    else regsInRange instruction m)
  else if h = 0xF000 then regsInRange instruction m
  else true

/-- The call of `cycle` in state `m` stays inside the arrays: the fetched word
lies inside `memory[4096]` and the dispatch makes no access out of range. -/
def InBounds (m : Machine) : Prop :=
  m.cpu.pc + 1 ≤ 4095 ∧ accessInRange (fetch m) (skip m) = true

instance (m : Machine) : Decidable (InBounds m) :=
  inferInstanceAs (Decidable (m.cpu.pc + 1 ≤ 4095 ∧ accessInRange (fetch m) (skip m) = true))

/-- Every call of `cycle` in the first `n` passes of the execution loop stays
inside the arrays (the keypad contents do not enter the bounds). -/
def LoopInRange (keys : Nat → Nat → Int) (rnds : Nat → Nat) (n : Nat) (m : Machine) : Prop :=
  ∀ k, k < n → InBounds (executionLoop keys rnds k m)

/-! ## Start-up -/

/-- The table `sprites` of `main.c`; each entry is the byte that the store
into the `unsigned char` cell of `memory` yields. -/
def sprites : List Nat :=
  [0xF0, 0x90, 0x90, 0x90, 0xF0,
   0x20, 0x60, 0x20, 0x20, 0x70,
   0xF0, 0x10, 0xF0, 0x80, 0xF0,
   0xF0, 0x10, 0xF0, 0x10, 0xF0,
   0x90, 0x90, 0xF0, 0x10, 0x10,
   0xF0, 0x80, 0xF0, 0x10, 0xF0,
   0xF0, 0x80, 0xF0, 0x90, 0xF0,
   0xF0, 0x10, 0x20, 0x40, 0x40,
   0xF0, 0x90, 0xF0, 0x90, 0xF0,
   0xF0, 0x90, 0xF0, 0x10, 0xF0,
   0xF0, 0x90, 0xF0, 0x90, 0x90,
   0xE0, 0x90, 0xE0, 0x90, 0xE0,
   0xF0, 0x80, 0x80, 0x80, 0xF0,
   0xE0, 0x90, 0x90, 0x90, 0xE0,
   0xF0, 0x80, 0xF0, 0x80, 0xF0,
   0xF0, 0x80, 0xF0, 0x80, 0x80]

/-- The function `initializeCPU`: the 4096 memory cells, the 16 stack slots and
the 16 registers are zeroed, the timers and `I` are zeroed, `pc = 0x200` and
`sp = 0`. -/
def initializeCPU (m : Machine) : Machine :=
  { m with cpu :=
      { memory := fun a => if a < 4096 then 0 else m.cpu.memory a,
        V := fun i => if i < 16 then 0 else m.cpu.V i,
        I := 0,
        delay := 0,
        sound := 0,
        pc := 0x200,
        stack := fun i => if i < 16 then 0 else m.cpu.stack i,
        sp := 0 } }

/-- The function `loadSprites`: `memory[i] = sprites[i]` for `i < 16 * 5`. -/
def loadSprites (m : Machine) : Machine :=
  { m with cpu := { m.cpu with
      memory := fun a => if a < 16 * 5 then sprites.getD a 0 else m.cpu.memory a } }

/-- The machine after `initializeCPU` and `loadSprites`, with the six program
bytes `6A 05 A0 50 DA B2` stored from `0x200`, the two sprite bytes `s0 s1`
stored at `0x050` and `0x051`, and the screen cleared by `cls`. -/
def endToEndStart (m0 : Machine) (s0 s1 : Nat) : Machine :=
  let m1 := loadSprites (initializeCPU m0)
  let m2 := setMem (setMem (setMem (setMem (setMem (setMem m1
    0x200 0x6A) 0x201 0x05) 0x202 0xA0) 0x203 0x50) 0x204 0xDA) 0x205 0xB2
  let m3 := setMem (setMem m2 0x050 s0) 0x051 s1
  cls m3

/-! ## Predicates used in the statements -/

/-- The parts of the state that `drawSprite` leaves alone: everything except
the framebuffer, the flag `SCREEN_IS_CUR` and register `VF`. -/
def DrawFrame (m m' : Machine) : Prop :=
  m'.cpu.memory = m.cpu.memory ∧ m'.cpu.I = m.cpu.I ∧ m'.cpu.delay = m.cpu.delay
  ∧ m'.cpu.sound = m.cpu.sound ∧ m'.cpu.pc = m.cpu.pc ∧ m'.cpu.stack = m.cpu.stack
  ∧ m'.cpu.sp = m.cpu.sp ∧ m'.keyboard = m.keyboard
  ∧ ∀ i, i ≠ 0xF → m'.cpu.V i = m.cpu.V i

/-- Cell `(r, col)` is targeted by a set bit of the `n`-row sprite stored at
`I`, drawn at origin `(x, y)`: some row `j < n` and column `i < 8` wrap onto
the cell and bit `7 - i` of `memory[I + j]` is set. -/
def SpriteHits (m : Machine) (x y n r col : Nat) : Prop :=
  ∃ j, j < n ∧ ∃ i, i < 8 ∧ (y + j) % 32 = r ∧ (x + i) % 64 = col
    ∧ m.cpu.memory (m.cpu.I + j) / 2 ^ (7 - i) % 2 = 1

instance (m : Machine) (x y n r col : Nat) : Decidable (SpriteHits m x y n r col) :=
  inferInstanceAs (Decidable (∃ j, j < n ∧ ∃ i, i < 8 ∧ (y + j) % 32 = r ∧ (x + i) % 64 = col
    ∧ m.cpu.memory (m.cpu.I + j) / 2 ^ (7 - i) % 2 = 1))

/-- Every cell of the 32 by 64 framebuffer holds `0` or `1`. -/
def BinaryScreen (m : Machine) : Prop :=
  ∀ r c, r < 32 → c < 64 → m.screenData r c = 0 ∨ m.screenData r c = 1

/-! ## Concrete machines used to evaluate the code -/

/-- A machine whose every cell, register and flag is zero. -/
def zeroMachine : Machine :=
  { cpu := { memory := fun _ => 0, V := fun _ => 0, I := 0, delay := 0, sound := 0,
             pc := 0, stack := fun _ => 0, sp := 0 },
    screenData := fun _ _ => 0,
    keyboard := fun _ => 0,
    SCREEN_IS_CUR := 1 }

/-- A machine with program counter `0x200`, the two bytes `hi lo` of one
instruction word stored there, and everything else zero. -/
def withWord (hi lo : Nat) : Machine :=
  { zeroMachine with
    cpu := { zeroMachine.cpu with
      pc := 0x200,
      memory := setAt (setAt zeroMachine.cpu.memory 0x200 hi) 0x201 lo } }

/-- One sprite row `0xC0` (two leftmost pixels set) at address `0x300`, with
`I = 0x300`, and the single framebuffer cell `(0, 0)` lit. -/
def collideFirstOnly : Machine :=
  { zeroMachine with
    cpu := { zeroMachine.cpu with I := 0x300, memory := setAt zeroMachine.cpu.memory 0x300 0xC0 },
    screenData := setCell zeroMachine.screenData 0 0 1 }

/-- One sprite row `0x80` (leftmost pixel set) at address `0x300`, with
`I = 0x300`, and the single framebuffer cell `(0, 0)` lit. -/
def litUnderSprite : Machine :=
  { zeroMachine with
    cpu := { zeroMachine.cpu with I := 0x300, memory := setAt zeroMachine.cpu.memory 0x300 0x80 },
    screenData := setCell zeroMachine.screenData 0 0 1 }

/-- One sprite row `0x80` at address `0x300`, with `I = 0x300`, on a dark
framebuffer. -/
def darkUnderSprite : Machine :=
  { zeroMachine with
    cpu := { zeroMachine.cpu with I := 0x300, memory := setAt zeroMachine.cpu.memory 0x300 0x80 } }

/-- The word `80F4` at `pc`, with `V0 = 250` and `VF = 10`. -/
def addFlagOperand : Machine := setV (setV (withWord 0x80 0xF4) 0 250) 0xF 10

/-- The word `80F5` at `pc`, with `V0 = 10` and `VF = 250`. -/
def subFlagOperand : Machine := setV (setV (withWord 0x80 0xF5) 0 10) 0xF 250

/-- The word `8F0k` at `pc` (`lo` is its low byte), with `VF = vf` and
`V0 = v0`: the destination register is the flag register. -/
def flagAliased (lo vf v0 : Nat) : Machine := setV (setV (withWord 0x8F lo) 0xF vf) 0 v0

/-- The word `8x16` or `8x1E` at `pc` (`lo` is its low byte) with `x = 0`,
`V0 = v0` and `V1 = 0xAA`. -/
def shiftExample (lo v0 : Nat) : Machine := setV (setV (withWord 0x80 lo) 0 v0) 1 0xAA

/-- The word `F033` at `pc`, with `V0 = 157` and `I = 0x300`. -/
def bcdExample : Machine :=
  let m := setV (withWord 0xF0 0x33) 0 157
  { m with cpu := { m.cpu with I := 0x300 } }

/-- The word `Fx55` at `pc` (`hi` is its high byte), with `V0 = 7`, `V1 = 9`
and `I = 0x300`; memory at `0x300` and `0x301` holds zero. -/
def storeExample (hi : Nat) : Machine :=
  let m := setV (setV (withWord hi 0x55) 0 7) 1 9
  { m with cpu := { m.cpu with I := 0x300 } }

/-- The word `Fx65` at `pc` (`hi` is its high byte), with `I = 0x300`,
`memory[0x300] = 7`, `memory[0x301] = 9` and every register zero. -/
def loadExample (hi : Nat) : Machine :=
  let m := setMem (setMem (withWord hi 0x65) 0x300 7) 0x301 9
  { m with cpu := { m.cpu with I := 0x300 } }

/-- The call word `2456` at `pc = 0x200`, the return word `00EE` at `0x456`,
`sp = 3` and everything else zero. -/
def callReturnExample : Machine :=
  let m := setMem (setMem (withWord 0x24 0x56) 0x456 0x00) 0x457 0xEE
  { m with cpu := { m.cpu with sp := 3 } }

/-- The skip word `E09E` or `E0A1` at `pc` (`lo` is its low byte), with
`V0 = 4` and key `4` in state `k`. -/
def keyExample (lo : Nat) (k : Int) : Machine :=
  let m := setV (withWord 0xE0 lo) 0 4
  { m with keyboard := fun i => if i = 4 then k else 0 }

/-- The word `E0kk` at `pc` (`lo` is its low byte), with `V0 = 157`,
`I = 0x300`, delay timer `9` and no key pressed. -/
def fallThroughExample (lo : Nat) : Machine :=
  let m := setV (withWord 0xE0 lo) 0 157
  { m with cpu := { m.cpu with I := 0x300, delay := 9 } }

/-! ## Basic facts -/

@[simp] theorem setAt_same (a : Nat → Nat) (i v : Nat) : setAt a i v i = v := by
  simp [setAt]

theorem setAt_other (a : Nat → Nat) (i v k : Nat) (h : k ≠ i) : setAt a i v k = a k := by
  simp [setAt, h]

theorem and_F000 (w : Nat) : w &&& 0xF000 = (w / 4096 % 16) * 4096 := by
  apply Nat.eq_of_testBit_eq
  intro i
  have h1 : (0xF000 : Nat) = (2 ^ 4 - 1) <<< 12 := by decide
  have h2 : (w / 4096 % 16) * 4096 = ((w >>> 12) % 2 ^ 4) <<< 12 := by
    simp [Nat.shiftLeft_eq, Nat.shiftRight_eq_div_pow]
  rw [h1, h2]
  simp only [Nat.testBit_and, Nat.testBit_shiftLeft, Nat.testBit_two_pow_sub_one,
    Nat.testBit_mod_two_pow, Nat.testBit_shiftRight]
  by_cases h : 12 ≤ i
  · have : 12 + (i - 12) = i := by omega
    simp [h, this]
    exact Bool.and_comm _ _
  · simp [h]

theorem and_F (w : Nat) : w &&& 0xF = w % 16 := Nat.and_pow_two_sub_one_eq_mod w 4

theorem and_FF (w : Nat) : w &&& 0xFF = w % 256 := Nat.and_pow_two_sub_one_eq_mod w 8

theorem and_FFF (w : Nat) : w &&& 0xFFF = w % 4096 := Nat.and_pow_two_sub_one_eq_mod w 12

theorem s_x_eq (w : Nat) : s_x w = w / 256 % 16 := by
  simp [s_x, and_F, Nat.shiftRight_eq_div_pow]

theorem s_y_eq (w : Nat) : s_y w = w / 16 % 16 := by
  simp [s_y, and_F, Nat.shiftRight_eq_div_pow]

/-- Decoding of the word with nibbles `h x y n`. -/
theorem decode_word (h x y n : Nat) (hh : h < 16) (hx : x < 16) (hy : y < 16) (hn : n < 16) :
    (4096 * h + 256 * x + 16 * y + n) &&& 0xF000 = 4096 * h
    ∧ s_x (4096 * h + 256 * x + 16 * y + n) = x
    ∧ s_y (4096 * h + 256 * x + 16 * y + n) = y
    ∧ (4096 * h + 256 * x + 16 * y + n) &&& 0xF = n
    ∧ (4096 * h + 256 * x + 16 * y + n) &&& 0xFF = 16 * y + n := by
  rw [and_F000, s_x_eq, s_y_eq, and_F, and_FF]
  omega

/-! ## The sprite compositor -/

theorem bit_test (c i : Nat) (hi : i < 8) :
    (c >>> (8 - i - 1)) &&& 1 = c / 2 ^ (7 - i) % 2 := by
  have h : 8 - i - 1 = 7 - i := by omega
  rw [h, Nat.shiftRight_eq_div_pow, Nat.and_one_is_mod]

theorem drawPixel_off (x y j c i : Nat) (m : Machine) (hi : i < 8)
    (h : c / 2 ^ (7 - i) % 2 ≠ 1) : drawPixel x y j c i m = m := by
  have h0 : c / 2 ^ (7 - i) % 2 = 0 := by omega
  simp [drawPixel, bit_test c i hi, h0]

theorem drawPixel_on (x y j c i : Nat) (m : Machine) (hi : i < 8)
    (h : c / 2 ^ (7 - i) % 2 = 1) :
    drawPixel x y j c i m =
      { cpu := { m.cpu with V := setAt m.cpu.V 0xF (m.screenData ((y + j) % 32) ((x + i) % 64)) },
        screenData := setCell m.screenData ((y + j) % 32) ((x + i) % 64)
          (m.screenData ((y + j) % 32) ((x + i) % 64) ^^^ 1),
        keyboard := m.keyboard,
        SCREEN_IS_CUR := 0 } := by
  simp [drawPixel, bit_test c i hi, h, setV]

theorem forLoop_succ {σ : Type} (body : Nat → σ → σ) (k : Nat) (s : σ) :
    forLoop body (k + 1) s = body k (forLoop body k s) := rfl

theorem forLoop_zero {σ : Type} (body : Nat → σ → σ) (s : σ) :
    forLoop body 0 s = s := rfl

/-- What one sprite row does: cells, flag and frame after the first `k`
columns of row `j`, whose byte is `c`. -/
theorem drawCols_spec (x y j c : Nat) (m : Machine) (k : Nat) (hk : k ≤ 8) :
    (∀ r col, (r = (y + j) % 32 ∧ ∃ i, i < k ∧ (x + i) % 64 = col ∧ c / 2 ^ (7 - i) % 2 = 1) →
        (forLoop (drawPixel x y j c) k m).screenData r col = m.screenData r col ^^^ 1)
    ∧ (∀ r col, ¬ (r = (y + j) % 32 ∧ ∃ i, i < k ∧ (x + i) % 64 = col ∧ c / 2 ^ (7 - i) % 2 = 1) →
        (forLoop (drawPixel x y j c) k m).screenData r col = m.screenData r col)
    ∧ ((∀ i, i < k → c / 2 ^ (7 - i) % 2 ≠ 1) → forLoop (drawPixel x y j c) k m = m)
    ∧ (∀ v, (∀ i, i < k → c / 2 ^ (7 - i) % 2 = 1 →
              m.screenData ((y + j) % 32) ((x + i) % 64) = v) →
            (∃ i, i < k ∧ c / 2 ^ (7 - i) % 2 = 1) →
            (forLoop (drawPixel x y j c) k m).cpu.V 0xF = v) := by
  induction k with
  | zero =>
    refine ⟨?_, ?_, ?_, ?_⟩
    · rintro r col ⟨_, i, hi, _⟩; omega
    · intro r col _; rfl
    · intro _; rfl
    · rintro v _ ⟨i, hi, _⟩; omega
  | succ k ih =>
    obtain ⟨ih1, ih2, ih3, ih4⟩ := ih (by omega)
    have hk8 : k < 8 := by omega
    rw [forLoop_succ]
    by_cases hb : c / 2 ^ (7 - k) % 2 = 1
    · -- the pixel is set
      rw [drawPixel_on x y j c k _ hk8 hb]
      have hfresh : (forLoop (drawPixel x y j c) k m).screenData ((y + j) % 32) ((x + k) % 64)
          = m.screenData ((y + j) % 32) ((x + k) % 64) := by
        apply ih2
        rintro ⟨_, i, hi, hcol, _⟩
        omega
      refine ⟨?_, ?_, ?_, ?_⟩
      · rintro r col ⟨hr, i, hi, hcol, hbit⟩
        by_cases hik : i = k
        · subst hik
          subst hr; subst hcol
          simp [setCell, hfresh]
        · have hne : ¬ (r = (y + j) % 32 ∧ col = (x + k) % 64) := by
            rintro ⟨_, h2⟩; omega
          simp only [setCell, hne, if_false]
          exact ih1 r col ⟨hr, i, by omega, hcol, hbit⟩
      · intro r col hno
        have hne : ¬ (r = (y + j) % 32 ∧ col = (x + k) % 64) := by
          rintro ⟨h1, h2⟩
          exact hno ⟨h1, k, by omega, h2.symm, hb⟩
        simp only [setCell, hne, if_false]
        apply ih2
        rintro ⟨h1, i, hi, hcol, hbit⟩
        exact hno ⟨h1, i, by omega, hcol, hbit⟩
      · intro hall
        exact absurd hb (hall k (by omega))
      · intro v hv _
        simp only [setAt_same]
        rw [hfresh]
        exact hv k (by omega) hb
    · -- the pixel is clear
      rw [drawPixel_off x y j c k _ hk8 hb]
      refine ⟨?_, ?_, ?_, ?_⟩
      · rintro r col ⟨hr, i, hi, hcol, hbit⟩
        have : i ≠ k := by rintro rfl; exact hb hbit
        exact ih1 r col ⟨hr, i, by omega, hcol, hbit⟩
      · intro r col hno
        apply ih2
        rintro ⟨h1, i, hi, hcol, hbit⟩
        exact hno ⟨h1, i, by omega, hcol, hbit⟩
      · intro hall
        exact ih3 (fun i hi => hall i (by omega))
      · rintro v hv ⟨i, hi, hbit⟩
        have : i ≠ k := by rintro rfl; exact hb hbit
        exact ih4 v (fun i hi => hv i (by omega)) ⟨i, by omega, hbit⟩

theorem DrawFrame.refl (m : Machine) : DrawFrame m m := by
  simp [DrawFrame]

theorem DrawFrame.trans {a b c : Machine} (h1 : DrawFrame a b) (h2 : DrawFrame b c) :
    DrawFrame a c := by
  obtain ⟨a1, a2, a3, a4, a5, a6, a7, a8, a9⟩ := h1
  obtain ⟨b1, b2, b3, b4, b5, b6, b7, b8, b9⟩ := h2
  refine ⟨b1.trans a1, b2.trans a2, b3.trans a3, b4.trans a4, b5.trans a5, b6.trans a6,
    b7.trans a7, b8.trans a8, fun i hi => (b9 i hi).trans (a9 i hi)⟩

theorem drawPixel_frame (x y j c i : Nat) (m : Machine) : DrawFrame m (drawPixel x y j c i m) := by
  unfold drawPixel
  by_cases h : (c >>> (8 - i - 1)) &&& 1 ≠ 0
  · rw [if_pos h]
    refine ⟨rfl, rfl, rfl, rfl, rfl, rfl, rfl, rfl, ?_⟩
    intro r hr
    simp [setV, setAt, hr]
  · rw [if_neg h]
    exact DrawFrame.refl m

theorem forLoop_frame {body : Nat → Machine → Machine}
    (hb : ∀ i s, DrawFrame s (body i s)) (n : Nat) (m : Machine) :
    DrawFrame m (forLoop body n m) := by
  induction n with
  | zero => exact DrawFrame.refl m
  | succ k ih => exact DrawFrame.trans ih (hb k _)

theorem drawRow_frame (x y j : Nat) (m : Machine) : DrawFrame m (drawRow x y j m) :=
  forLoop_frame (fun i s => drawPixel_frame x y j _ i s) 8 m

theorem drawSprite_frame (x y n : Nat) (m : Machine) : DrawFrame m (drawSprite x y n m) :=
  forLoop_frame (fun j s => drawRow_frame x y j s) n m

/-- What `drawSprite` does to the cells and to the flag register, for a sprite
of at most 32 rows. -/
theorem drawRows_spec (x y : Nat) (m : Machine) (n : Nat) (hn : n ≤ 32) :
    (∀ r col, SpriteHits m x y n r col →
        (drawSprite x y n m).screenData r col = m.screenData r col ^^^ 1)
    ∧ (∀ r col, ¬ SpriteHits m x y n r col →
        (drawSprite x y n m).screenData r col = m.screenData r col)
    ∧ (∀ v, (∀ r col, SpriteHits m x y n r col → m.screenData r col = v) →
        (∃ r col, SpriteHits m x y n r col) → (drawSprite x y n m).cpu.V 0xF = v)
    ∧ ((∀ r col, ¬ SpriteHits m x y n r col) → drawSprite x y n m = m) := by
  induction n with
  | zero =>
    refine ⟨?_, ?_, ?_, ?_⟩
    · rintro r col ⟨j, hj, _⟩; omega
    · intro r col _; rfl
    · rintro v _ ⟨r, col, j, hj, _⟩; omega
    · intro _; rfl
  | succ n ih =>
    obtain ⟨ih1, ih2, ih3, ih4⟩ := ih (by omega)
    have hfr := drawSprite_frame x y n m
    have hmem : (drawSprite x y n m).cpu.memory ((drawSprite x y n m).cpu.I + n)
        = m.cpu.memory (m.cpu.I + n) := by
      rw [hfr.1, hfr.2.1]
    have hstep : drawSprite x y (n + 1) m
        = forLoop (drawPixel x y n (m.cpu.memory (m.cpu.I + n))) 8 (drawSprite x y n m) := by
      show drawRow x y n (drawSprite x y n m) = _
      unfold drawRow
      simp only [hmem]
    obtain ⟨R1, R2, R3, R4⟩ :=
      drawCols_spec x y n (m.cpu.memory (m.cpu.I + n)) (drawSprite x y n m) 8 (le_refl _)
    have hold : ∀ col, (drawSprite x y n m).screenData ((y + n) % 32) col
        = m.screenData ((y + n) % 32) col := by
      intro col
      apply ih2
      rintro ⟨j, hj, i, _, hr, _⟩
      omega
    rw [hstep]
    refine ⟨?_, ?_, ?_, ?_⟩
    · rintro r col ⟨j, hj, i, hi, hr, hc, hb⟩
      by_cases hjn : j = n
      · subst hjn
        rw [R1 r col ⟨hr.symm, i, hi, hc, hb⟩, ← hr, hold]
      · have hlt : j < n := by omega
        rw [R2 r col (by rintro ⟨h1, _⟩; omega)]
        exact ih1 r col ⟨j, hlt, i, hi, hr, hc, hb⟩
    · intro r col hno
      rw [R2 r col (by
        rintro ⟨h1, i, hi, hc, hb⟩
        exact hno ⟨n, by omega, i, hi, h1.symm, hc, hb⟩)]
      apply ih2
      rintro ⟨j, hj, i, hi, hr, hc, hb⟩
      exact hno ⟨j, by omega, i, hi, hr, hc, hb⟩
    · rintro v hv ⟨r, col, j, hj, i, hi, hr, hc, hb⟩
      by_cases hrow : ∃ i, i < 8 ∧ m.cpu.memory (m.cpu.I + n) / 2 ^ (7 - i) % 2 = 1
      · apply R4 v _ hrow
        intro i hi hb
        rw [hold]
        exact hv _ _ ⟨n, by omega, i, hi, rfl, rfl, hb⟩
      · rw [R3 (fun i hi hb => hrow ⟨i, hi, hb⟩)]
        have hjn : j ≠ n := by
          rintro rfl
          exact hrow ⟨i, hi, hb⟩
        apply ih3 v
        · intro r col ⟨j, hj, i, hi, hr, hc, hb⟩
          exact hv r col ⟨j, by omega, i, hi, hr, hc, hb⟩
        · exact ⟨r, col, j, by omega, i, hi, hr, hc, hb⟩
    · intro hno
      rw [R3 (fun i hi hb => hno _ _ ⟨n, by omega, i, hi, rfl, rfl, hb⟩)]
      apply ih4
      rintro r col ⟨j, hj, i, hi, hr, hc, hb⟩
      exact hno r col ⟨j, by omega, i, hi, hr, hc, hb⟩

theorem spriteHits_frame (m m' : Machine) (h : DrawFrame m m') (x y n r col : Nat) :
    SpriteHits m' x y n r col ↔ SpriteHits m x y n r col := by
  unfold SpriteHits
  rw [h.1, h.2.1]

theorem xor_one_twice (a : Nat) : a ^^^ 1 ^^^ 1 = a := by
  rw [Nat.xor_assoc, Nat.xor_self, Nat.xor_zero]

/-! ## Claims about `drawSprite` -/

/-- C1 (evaluation at the failing input): the sprite row `0xC0` is drawn at
the origin of a framebuffer whose only lit cell is `(0, 0)`.  The leftmost
sprite bit is composited onto that lit cell, yet `drawSprite` leaves `VF = 0`:
the flag holds the value seen by the last set pixel, not the OR over all. -/
theorem drawSprite_flag_is_last_pixel :
    SpriteHits collideFirstOnly 0 0 1 0 0
    ∧ collideFirstOnly.screenData 0 0 = 1
    ∧ (drawSprite 0 0 1 collideFirstOnly).cpu.V 0xF = 0 := by
  refine ⟨⟨0, by decide, 0, by decide, by decide, by decide, by decide⟩, by decide, by decide⟩

/-- C2: for origin `x, y` in `0..255` and height `n ≤ 15` with `I + n ≤ 4096`,
after `drawSprite` every framebuffer cell equals its previous value XOR `b`,
where `b = 1` exactly when a set sprite bit targets the cell (row `j < n`,
column `i < 8`, wrapped modulo 32 and 64, bit `7 - i` of `memory[I + j]`);
untargeted cells are unchanged, and memory, `I` and `V0..VE` are unchanged. -/
theorem drawSprite_xor_composite (m : Machine) (x y n : Nat)
    (_hx : x < 256) (_hy : y < 256) (hn : n ≤ 15) (_hI : m.cpu.I + n ≤ 4096) :
    (∀ r col, (drawSprite x y n m).screenData r col
        = m.screenData r col ^^^ (if SpriteHits m x y n r col then 1 else 0))
    ∧ (∀ r col, ¬ SpriteHits m x y n r col →
        (drawSprite x y n m).screenData r col = m.screenData r col)
    ∧ (drawSprite x y n m).cpu.memory = m.cpu.memory
    ∧ (drawSprite x y n m).cpu.I = m.cpu.I
    ∧ (∀ i, i < 15 → (drawSprite x y n m).cpu.V i = m.cpu.V i) := by
  obtain ⟨h1, h2, -, -⟩ := drawRows_spec x y m n (by omega)
  have hf := drawSprite_frame x y n m
  refine ⟨?_, h2, hf.1, hf.2.1, fun i hi => hf.2.2.2.2.2.2.2.2 i (by omega)⟩
  intro r col
  by_cases hh : SpriteHits m x y n r col
  · rw [if_pos hh]; exact h1 r col hh
  · rw [if_neg hh, Nat.xor_zero]; exact h2 r col hh

/-- Witness for C2: the one-row sprite `0x80` drawn at the origin of a dark
framebuffer lights cell `(0, 0)` and leaves cell `(0, 1)` dark. -/
theorem drawSprite_xor_composite_witness :
    (drawSprite 0 0 1 darkUnderSprite).screenData 0 0 = 0 ^^^ 1
    ∧ (drawSprite 0 0 1 darkUnderSprite).screenData 0 1 = 0 ^^^ 0
    ∧ (drawSprite 0 0 1 darkUnderSprite).cpu.memory = darkUnderSprite.cpu.memory := by
  have h := drawSprite_xor_composite darkUnderSprite 0 0 1 (by decide) (by decide)
    (by decide) (by decide)
  refine ⟨?_, ?_, h.2.2.1⟩
  · have h00 := h.1 0 0
    rw [if_pos (by decide)] at h00
    exact h00
  · have h01 := h.1 0 1
    rw [if_neg (by decide)] at h01
    exact h01

/-- C3: for height `n ≤ 15` with `I + n ≤ 4096`, two successive calls of
`drawSprite` with the same origin leave every framebuffer cell equal to what
it was before the first call. -/
theorem drawSprite_twice_restores (m : Machine) (x y n : Nat)
    (hn : n ≤ 15) (_hI : m.cpu.I + n ≤ 4096) :
    ∀ r col, (drawSprite x y n (drawSprite x y n m)).screenData r col = m.screenData r col := by
  intro r col
  obtain ⟨h1, h2, -, -⟩ := drawRows_spec x y m n (by omega)
  obtain ⟨g1, g2, -, -⟩ := drawRows_spec x y (drawSprite x y n m) n (by omega)
  have hiff := spriteHits_frame m _ (drawSprite_frame x y n m) x y n r col
  by_cases hh : SpriteHits m x y n r col
  · rw [g1 r col (hiff.mpr hh), h1 r col hh, xor_one_twice]
  · rw [g2 r col (fun h => hh (hiff.mp h)), h2 r col hh]

/-- Witness for C3: cell `(0, 0)` of the lit framebuffer is lit again after the
sprite `0x80` has been drawn twice over it. -/
theorem drawSprite_twice_restores_witness :
    (drawSprite 0 0 1 (drawSprite 0 0 1 litUnderSprite)).screenData 0 0
      = litUnderSprite.screenData 0 0 :=
  drawSprite_twice_restores litUnderSprite 0 0 1 (by decide) (by decide) 0 0

/-- C4 refuted as stated: with cell `(0, 0)` lit before the first draw, the
one-pixel sprite `0x80` drawn twice at the origin leaves `VF = 0`, so the flag
after the second draw is not `1` for every initial framebuffer. -/
theorem drawSprite_twice_flag_counterexample :
    ¬ (∀ (m : Machine) (x y n : Nat), 1 ≤ n → n ≤ 15 → m.cpu.I + n ≤ 4096 →
        (∃ j, j < n ∧ ∃ i, i < 8 ∧ m.cpu.memory (m.cpu.I + j) / 2 ^ (7 - i) % 2 = 1) →
        (drawSprite x y n (drawSprite x y n m)).cpu.V 0xF = 1) := by
  intro h
  have h1 := h litUnderSprite 0 0 1 (by decide) (by decide) (by decide)
    ⟨0, by decide, 0, by decide, by decide⟩
  revert h1
  decide

/-- C4 as amended: when every framebuffer cell targeted by a set sprite bit is
`0` before the first draw, a sprite of height `1 ≤ n ≤ 15` (`I + n ≤ 4096`)
with at least one set bit, drawn twice at the same origin, leaves `VF = 1`
after the second draw. -/
theorem drawSprite_twice_flag_on_dark (m : Machine) (x y n : Nat)
    (_h1 : 1 ≤ n) (hn : n ≤ 15) (_hI : m.cpu.I + n ≤ 4096)
    (hbit : ∃ j, j < n ∧ ∃ i, i < 8 ∧ m.cpu.memory (m.cpu.I + j) / 2 ^ (7 - i) % 2 = 1)
    (hdark : ∀ r col, SpriteHits m x y n r col → m.screenData r col = 0) :
    (drawSprite x y n (drawSprite x y n m)).cpu.V 0xF = 1 := by
  obtain ⟨a1, -, -, -⟩ := drawRows_spec x y m n (by omega)
  obtain ⟨-, -, g3, -⟩ := drawRows_spec x y (drawSprite x y n m) n (by omega)
  have hiff := spriteHits_frame m _ (drawSprite_frame x y n m) x y n
  apply g3 1
  · intro r col hh
    have hm := (hiff r col).mp hh
    rw [a1 r col hm, hdark r col hm]
    rfl
  · obtain ⟨j, hj, i, hi, hb⟩ := hbit
    exact ⟨(y + j) % 32, (x + i) % 64, (hiff _ _).mpr ⟨j, hj, i, hi, rfl, rfl, hb⟩⟩

/-- Witness for C4 as amended: the sprite `0x80` drawn twice on a dark
framebuffer. -/
theorem drawSprite_twice_flag_on_dark_witness :
    (drawSprite 0 0 1 (drawSprite 0 0 1 darkUnderSprite)).cpu.V 0xF = 1 :=
  drawSprite_twice_flag_on_dark darkUnderSprite 0 0 1 (by decide) (by decide) (by decide)
    ⟨0, by decide, 0, by decide, by decide⟩
    (by
      rintro r col ⟨j, hj, i, hi, hr, hc, hb⟩
      rfl)

/-! ## Dispatch -/

theorem execute_op8 (rnd x y k : Nat) (m : Machine) (hx : x < 16) (hy : y < 16) (hk : k < 16) :
    execute rnd (4096 * 8 + 256 * x + 16 * y + k) m = op8 (4096 * 8 + 256 * x + 16 * y + k) m := by
  obtain ⟨h1, -, -, -, -⟩ := decode_word 8 x y k (by decide) hx hy hk
  unfold execute
  simp only [h1]
  simp

theorem execute_opF (rnd x y k : Nat) (m : Machine) (hx : x < 16) (hy : y < 16) (hk : k < 16) :
    execute rnd (4096 * 15 + 256 * x + 16 * y + k) m = opF (4096 * 15 + 256 * x + 16 * y + k) m := by
  obtain ⟨h1, -, -, -, -⟩ := decode_word 15 x y k (by decide) hx hy hk
  unfold execute
  simp only [h1]
  simp

theorem msb_test (a : Nat) : (a &&& (1 <<< 7)) >>> 7 = (a >>> 7) &&& 1 := by
  apply Nat.eq_of_testBit_eq
  intro i
  simp only [Nat.testBit_shiftRight, Nat.testBit_and, Nat.one_shiftLeft, Nat.testBit_two_pow]
  by_cases h : i = 0
  · subst h; simp
  · have h7 : (7 : Nat) ≠ 7 + i := by omega
    have h1 : Nat.testBit 1 i = false := by
      rw [← Bool.not_eq_true, Nat.testBit_one_eq_true_iff_self_eq_zero]
      exact h
    simp [h7, h1]

/-- The instruction `8xy4` when neither operand register is the flag
register: carry in `VF`, wrapped sum in `Vx`. -/
theorem add_with_carry (m : Machine) (rnd x y : Nat) (hx : x < 15) (hy : y < 15)
    (hf : fetch m = 0x8004 + 256 * x + 16 * y) :
    (cycle rnd m).cpu.V 0xF = (if m.cpu.V x + m.cpu.V y > 255 then 1 else 0)
    ∧ (cycle rnd m).cpu.V x = (m.cpu.V x + m.cpu.V y) % 256 := by
  have hw : 0x8004 + 256 * x + 16 * y = 4096 * 8 + 256 * x + 16 * y + 4 := by omega
  obtain ⟨-, d2, d3, d4, -⟩ := decode_word 8 x y 4 (by decide) (by omega) (by omega) (by decide)
  unfold cycle
  simp only [hf, hw]
  rw [execute_op8 rnd x y 4 _ (by omega) (by omega) (by decide)]
  unfold op8
  simp only [d2, d3, d4]
  have hxF : x ≠ 15 := by omega
  have hyF : y ≠ 15 := by omega
  simp [setV, setAt, skip, setPc, hxF, hyF, Ne.symm hxF]

/-- The instruction `8xy5` when neither operand register is the flag
register: `VF = (Vx > Vy)`, wrapped difference in `Vx`. -/
theorem sub_with_flag (m : Machine) (rnd x y : Nat) (hx : x < 15) (hy : y < 15)
    (hf : fetch m = 0x8005 + 256 * x + 16 * y) :
    (cycle rnd m).cpu.V 0xF = (if m.cpu.V x > m.cpu.V y then 1 else 0)
    ∧ (cycle rnd m).cpu.V x = toU8 ((m.cpu.V x : Int) - (m.cpu.V y : Int)) := by
  have hw : 0x8005 + 256 * x + 16 * y = 4096 * 8 + 256 * x + 16 * y + 5 := by omega
  obtain ⟨-, d2, d3, d4, -⟩ := decode_word 8 x y 5 (by decide) (by omega) (by omega) (by decide)
  unfold cycle
  simp only [hf, hw]
  rw [execute_op8 rnd x y 5 _ (by omega) (by omega) (by decide)]
  unfold op8
  simp only [d2, d3, d4]
  have hxF : x ≠ 15 := by omega
  have hyF : y ≠ 15 := by omega
  simp [setV, setAt, skip, setPc, hxF, hyF, Ne.symm hxF]

/-! ## Claims about the arithmetic group `8xyN` -/

/-- C5 (evaluation at the failing input): the word `80F4` with `V0 = 250` and
`VF = 10`.  The carry is stored in `VF` before the addition re-reads `Vy = VF`,
so `V0` becomes `250 + 1 = 251` and not `(250 + 10) mod 256 = 4`. -/
theorem add_rereads_flag_operand :
    ∀ rnd : Nat, fetch addFlagOperand = 0x80F4
      ∧ addFlagOperand.cpu.V 0 = 250 ∧ addFlagOperand.cpu.V 0xF = 10
      ∧ (cycle rnd addFlagOperand).cpu.V 0 = 251
      ∧ (cycle rnd addFlagOperand).cpu.V 0xF = 1 := by
  intro rnd
  exact ⟨rfl, rfl, rfl, rfl, rfl⟩

/-- C6 (evaluation at the failing input): the word `80F5` with `V0 = 10` and
`VF = 250`.  The flag `0` is stored in `VF` before the subtraction re-reads
`Vy = VF`, so `V0` stays `10 - 0 = 10` and not `(10 - 250) mod 256 = 16`. -/
theorem sub_rereads_flag_operand :
    ∀ rnd : Nat, fetch subFlagOperand = 0x80F5
      ∧ subFlagOperand.cpu.V 0 = 10 ∧ subFlagOperand.cpu.V 0xF = 250
      ∧ (cycle rnd subFlagOperand).cpu.V 0 = 10
      ∧ (cycle rnd subFlagOperand).cpu.V 0xF = 0 := by
  intro rnd
  exact ⟨rfl, rfl, rfl, rfl, rfl⟩

/-- C7 (evaluation at failing inputs): with destination `x = 0xF` the result
overwrites the flag.  `8F04` with `VF = 200`, `V0 = 100` has carry `1` and
leaves `VF = 101`; `8F05` with `VF = 5`, `V0 = 3` has flag `1` and leaves
`VF = 254`; `8F06` with `VF = 3` has flag `1` and leaves `VF = 0`; `8F07` with
`VF = 3`, `V0 = 5` has flag `1` and leaves `VF = 4`; `8F0E` with `VF = 0x81`
has flag `1` and leaves `VF = 2`. -/
theorem flag_lost_when_destination_is_VF :
    ∀ rnd : Nat,
      (cycle rnd (flagAliased 0x04 200 100)).cpu.V 0xF = 101
      ∧ (cycle rnd (flagAliased 0x05 5 3)).cpu.V 0xF = 254
      ∧ (cycle rnd (flagAliased 0x06 3 0)).cpu.V 0xF = 0
      ∧ (cycle rnd (flagAliased 0x07 3 5)).cpu.V 0xF = 4
      ∧ (cycle rnd (flagAliased 0x0E 0x81 0)).cpu.V 0xF = 2 := by
  intro rnd
  exact ⟨rfl, rfl, rfl, rfl, rfl⟩

/-- C8: for `x ≠ 0xF` and any `y`, `8xy6` leaves `VF = Vx & 1` and
`Vx = Vx >> 1`, and `8xyE` leaves `VF = (Vx >> 7) & 1` and
`Vx = (Vx << 1) mod 256`, all on the value of `Vx` before the instruction.
When `y ≠ x` and `y ≠ 0xF`, `Vy` keeps its value and the outcome does not
depend on it: the same instruction run with any other value `v` in `Vy`
leaves the same `VF` and `Vx`. -/
theorem shift_instructions (m : Machine) (rnd x y : Nat) (hx : x < 15) (hy : y < 16) :
    (fetch m = 0x8006 + 256 * x + 16 * y →
      (cycle rnd m).cpu.V 0xF = m.cpu.V x &&& 1
      ∧ (cycle rnd m).cpu.V x = m.cpu.V x >>> 1
      ∧ (y ≠ x → y ≠ 0xF →
          (cycle rnd m).cpu.V y = m.cpu.V y
          ∧ ∀ v, (cycle rnd (setV m y v)).cpu.V 0xF = (cycle rnd m).cpu.V 0xF
              ∧ (cycle rnd (setV m y v)).cpu.V x = (cycle rnd m).cpu.V x))
    ∧ (fetch m = 0x800E + 256 * x + 16 * y →
      (cycle rnd m).cpu.V 0xF = (m.cpu.V x >>> 7) &&& 1
      ∧ (cycle rnd m).cpu.V x = (m.cpu.V x <<< 1) % 256
      ∧ (y ≠ x → y ≠ 0xF →
          (cycle rnd m).cpu.V y = m.cpu.V y
          ∧ ∀ v, (cycle rnd (setV m y v)).cpu.V 0xF = (cycle rnd m).cpu.V 0xF
              ∧ (cycle rnd (setV m y v)).cpu.V x = (cycle rnd m).cpu.V x)) := by
  have hxF : x ≠ 15 := by omega
  have hfetch : ∀ v, fetch (setV m y v) = fetch m := fun _ => rfl
  constructor
  · intro hf
    have hw : 0x8006 + 256 * x + 16 * y = 4096 * 8 + 256 * x + 16 * y + 6 := by omega
    obtain ⟨-, d2, d3, d4, -⟩ := decode_word 8 x y 6 (by decide) (by omega) hy (by decide)
    have key : ∀ m' : Machine, fetch m' = fetch m →
        (cycle rnd m').cpu.V = setAt (setAt m'.cpu.V 0xF (m'.cpu.V x &&& 1)) x (m'.cpu.V x >>> 1) := by
      intro m' hm'
      unfold cycle
      simp only [hm', hf, hw]
      rw [execute_op8 rnd x y 6 _ (by omega) hy (by decide)]
      unfold op8
      simp only [d2, d3, d4]
      simp [setV, setAt, skip, setPc, hxF]
    refine ⟨?_, ?_, ?_⟩
    · rw [key m rfl]; simp [setAt, Ne.symm hxF]
    · rw [key m rfl]; simp [setAt]
    · intro hyx hyF
      refine ⟨?_, ?_⟩
      · rw [key m rfl]; simp [setAt, hyx, hyF]
      · intro v
        rw [key m rfl, key _ (hfetch v)]
        simp [setV, setAt, Ne.symm hxF, Ne.symm hyx]
  · intro hf
    have hw : 0x800E + 256 * x + 16 * y = 4096 * 8 + 256 * x + 16 * y + 14 := by omega
    obtain ⟨-, d2, d3, d4, -⟩ := decode_word 8 x y 14 (by decide) (by omega) hy (by decide)
    have key : ∀ m' : Machine, fetch m' = fetch m →
        (cycle rnd m').cpu.V
          = setAt (setAt m'.cpu.V 0xF ((m'.cpu.V x >>> 7) &&& 1)) x ((m'.cpu.V x <<< 1) % 256) := by
      intro m' hm'
      unfold cycle
      simp only [hm', hf, hw]
      rw [execute_op8 rnd x y 14 _ (by omega) hy (by decide)]
      unfold op8
      simp only [d2, d3, d4]
      rw [← msb_test]
      simp [setV, setAt, skip, setPc, hxF]
    refine ⟨?_, ?_, ?_⟩
    · rw [key m rfl]; simp [setAt, Ne.symm hxF]
    · rw [key m rfl]; simp [setAt]
    · intro hyx hyF
      refine ⟨?_, ?_⟩
      · rw [key m rfl]; simp [setAt, hyx, hyF]
      · intro v
        rw [key m rfl, key _ (hfetch v)]
        simp [setV, setAt, Ne.symm hxF, Ne.symm hyx]

/-- Witness for C8: `8016` on `V0 = 0b00000011` gives `V0 = 0b00000001`,
`VF = 1`, and `801E` on `V0 = 0b10000001` gives `V0 = 0b00000010`, `VF = 1`;
`V1` keeps its value `0xAA`. -/
theorem shift_instructions_witness :
    ((cycle 0 (shiftExample 0x16 3)).cpu.V 0xF = 1
      ∧ (cycle 0 (shiftExample 0x16 3)).cpu.V 0 = 1
      ∧ (cycle 0 (shiftExample 0x16 3)).cpu.V 1 = 0xAA)
    ∧ ((cycle 0 (shiftExample 0x1E 0x81)).cpu.V 0xF = 1
      ∧ (cycle 0 (shiftExample 0x1E 0x81)).cpu.V 0 = 2
      ∧ (cycle 0 (shiftExample 0x1E 0x81)).cpu.V 1 = 0xAA) := by
  have h6 := (shift_instructions (shiftExample 0x16 3) 0 0 1 (by decide) (by decide)).1 rfl
  have hE := (shift_instructions (shiftExample 0x1E 0x81) 0 0 1 (by decide) (by decide)).2 rfl
  exact ⟨⟨h6.1, h6.2.1, (h6.2.2 (by decide) (by decide)).1⟩,
    ⟨hE.1, hE.2.1, (hE.2.2 (by decide) (by decide)).1⟩⟩

/-! ## Claims about the register group `Fxkk` -/

/-- C9: with `I + 2 ≤ 4095`, `Fx33` stores `Vx / 100` at `memory[I]`,
`(Vx / 10) mod 10` at `memory[I+1]` and `Vx mod 10` at `memory[I+2]`; each
stored byte is a decimal digit and the three digits recompose `Vx`; no other
memory byte changes, and the registers, `I`, the timers, the stack and the
framebuffer are unchanged (the program counter has advanced by two). -/
theorem bcd_store (m : Machine) (rnd x : Nat) (hx : x < 16) (hV : m.cpu.V x < 256)
    (_hI : m.cpu.I + 2 ≤ 4095) (hf : fetch m = 0xF033 + 256 * x) :
    (cycle rnd m).cpu.memory m.cpu.I = m.cpu.V x / 100
    ∧ (cycle rnd m).cpu.memory (m.cpu.I + 1) = m.cpu.V x / 10 % 10
    ∧ (cycle rnd m).cpu.memory (m.cpu.I + 2) = m.cpu.V x % 10
    ∧ (cycle rnd m).cpu.memory m.cpu.I ≤ 9
    ∧ (cycle rnd m).cpu.memory (m.cpu.I + 1) ≤ 9
    ∧ (cycle rnd m).cpu.memory (m.cpu.I + 2) ≤ 9
    ∧ 100 * (cycle rnd m).cpu.memory m.cpu.I + 10 * (cycle rnd m).cpu.memory (m.cpu.I + 1)
        + (cycle rnd m).cpu.memory (m.cpu.I + 2) = m.cpu.V x
    ∧ (∀ a, a ≠ m.cpu.I → a ≠ m.cpu.I + 1 → a ≠ m.cpu.I + 2 →
        (cycle rnd m).cpu.memory a = m.cpu.memory a)
    ∧ (cycle rnd m).cpu.V = m.cpu.V
    ∧ (cycle rnd m).cpu.I = m.cpu.I
    ∧ (cycle rnd m).cpu.delay = m.cpu.delay
    ∧ (cycle rnd m).cpu.sound = m.cpu.sound
    ∧ (cycle rnd m).cpu.stack = m.cpu.stack
    ∧ (cycle rnd m).cpu.sp = m.cpu.sp
    ∧ (cycle rnd m).screenData = m.screenData
    ∧ (cycle rnd m).cpu.pc = (m.cpu.pc + 2) % 65536 := by
  have hw : 0xF033 + 256 * x = 4096 * 15 + 256 * x + 16 * 3 + 3 := by omega
  obtain ⟨-, d2, -, -, d5⟩ := decode_word 15 x 3 3 (by decide) hx (by decide) (by decide)
  have key : cycle rnd m =
      setMem (setMem (setMem (skip m) (m.cpu.I + 2) (m.cpu.V x % 10))
        (m.cpu.I + 1) (m.cpu.V x / 10 % 10)) m.cpu.I (m.cpu.V x / 10 / 10 % 10) := by
    unfold cycle
    simp only [hf, hw]
    rw [execute_opF rnd x 3 3 _ hx (by decide) (by decide)]
    unfold opF
    simp only [d2, d5]
    simp [setMem, skip, setPc]
  have e0 : (cycle rnd m).cpu.memory m.cpu.I = m.cpu.V x / 100 := by
    rw [key]
    simp only [setMem, setAt_same]
    omega
  have e1 : (cycle rnd m).cpu.memory (m.cpu.I + 1) = m.cpu.V x / 10 % 10 := by
    rw [key]
    simp [setMem, setAt]
  have e2 : (cycle rnd m).cpu.memory (m.cpu.I + 2) = m.cpu.V x % 10 := by
    rw [key]
    simp [setMem, setAt]
  refine ⟨e0, e1, e2, ?_, ?_, ?_, ?_, ?_, ?_, ?_, ?_, ?_, ?_, ?_, ?_, ?_⟩
  · rw [e0]; omega
  · rw [e1]; omega
  · rw [e2]; omega
  · rw [e0, e1, e2]; omega
  · intro a h0 h1 h2
    rw [key]
    simp [setMem, setAt, h0, h1, h2, skip, setPc]
  all_goals (rw [key]; rfl)

/-- Witness for C9: `F033` with `V0 = 157` and `I = 0x300` stores `1, 5, 7`. -/
theorem bcd_store_witness :
    (cycle 0 bcdExample).cpu.memory 0x300 = 1
    ∧ (cycle 0 bcdExample).cpu.memory 0x301 = 5
    ∧ (cycle 0 bcdExample).cpu.memory 0x302 = 7 := by
  have h := bcd_store bcdExample 0 0 (by decide) (by decide) (by decide) rfl
  exact ⟨h.1, h.2.1, h.2.2.1⟩

theorem storeLoop_spec (k : Nat) (m : Machine) :
    (forLoop (fun i s => setMem s (s.cpu.I + i) (s.cpu.V i)) k m).cpu.V = m.cpu.V
    ∧ (forLoop (fun i s => setMem s (s.cpu.I + i) (s.cpu.V i)) k m).cpu.I = m.cpu.I
    ∧ ∀ a, (forLoop (fun i s => setMem s (s.cpu.I + i) (s.cpu.V i)) k m).cpu.memory a
        = if m.cpu.I ≤ a ∧ a < m.cpu.I + k then m.cpu.V (a - m.cpu.I) else m.cpu.memory a := by
  induction k with
  | zero =>
    refine ⟨rfl, rfl, fun a => ?_⟩
    have : ¬ (m.cpu.I ≤ a ∧ a < m.cpu.I + 0) := by omega
    rw [if_neg this]
    rfl
  | succ k ih =>
    obtain ⟨ihV, ihI, ihM⟩ := ih
    rw [forLoop_succ]
    refine ⟨ihV, ihI, fun a => ?_⟩
    show setAt _ _ _ a = _
    rw [ihV, ihI]
    by_cases ha : a = m.cpu.I + k
    · subst ha
      rw [setAt_same, if_pos (by omega)]
      congr 1
      omega
    · rw [setAt_other _ _ _ _ ha, ihM a]
      by_cases hin : m.cpu.I ≤ a ∧ a < m.cpu.I + k
      · rw [if_pos hin, if_pos (by omega)]
      · rw [if_neg hin, if_neg (by omega)]

/-- The instruction `Fx55` stores `V0 .. V(x-1)` at `memory[I .. I+x-1]` and
leaves every other byte, `memory[I+x]` included, as it was. -/
theorem store_registers_below_x (m : Machine) (rnd x : Nat) (hx : x < 16)
    (hf : fetch m = 0xF055 + 256 * x) :
    (∀ i, i < x → (cycle rnd m).cpu.memory (m.cpu.I + i) = m.cpu.V i)
    ∧ (∀ a, ¬ (m.cpu.I ≤ a ∧ a < m.cpu.I + x) → (cycle rnd m).cpu.memory a = m.cpu.memory a)
    ∧ (cycle rnd m).cpu.V = m.cpu.V := by
  have hw : 0xF055 + 256 * x = 4096 * 15 + 256 * x + 16 * 5 + 5 := by omega
  obtain ⟨-, d2, -, -, d5⟩ := decode_word 15 x 5 5 (by decide) hx (by decide) (by decide)
  have key : cycle rnd m = forLoop (fun i s => setMem s (s.cpu.I + i) (s.cpu.V i)) x (skip m) := by
    unfold cycle
    simp only [hf, hw]
    rw [execute_opF rnd x 5 5 _ hx (by decide) (by decide)]
    unfold opF
    simp only [d2, d5]
    simp
  obtain ⟨sV, -, sM⟩ := storeLoop_spec x (skip m)
  rw [key]
  refine ⟨fun i hi => ?_, fun a ha => ?_, sV⟩
  · rw [sM]
    show (if m.cpu.I ≤ m.cpu.I + i ∧ m.cpu.I + i < m.cpu.I + x then m.cpu.V (m.cpu.I + i - m.cpu.I)
      else m.cpu.memory (m.cpu.I + i)) = _
    rw [if_pos (by omega)]
    congr 1
    omega
  · rw [sM]
    show (if m.cpu.I ≤ a ∧ a < m.cpu.I + x then m.cpu.V (a - m.cpu.I)
      else m.cpu.memory a) = _
    rw [if_neg ha]

/-- C10 (evaluation at the failing input): `F055` with `V0 = 7`, `I = 0x300`
and `memory[0x300] = 0` writes nothing, so `memory[I]` is not `V0`; `F155`
with `V1 = 9` writes `V0` to `memory[0x300]` and leaves `memory[0x301] = 0`.
The loop runs for `i < x`, one register short of `V0..Vx`. -/
theorem store_registers_stops_before_Vx :
    ∀ rnd : Nat,
      fetch (storeExample 0xF0) = 0xF055
      ∧ (storeExample 0xF0).cpu.V 0 = 7
      ∧ (cycle rnd (storeExample 0xF0)).cpu.memory 0x300 = 0
      ∧ fetch (storeExample 0xF1) = 0xF155
      ∧ (storeExample 0xF1).cpu.V 1 = 9
      ∧ (cycle rnd (storeExample 0xF1)).cpu.memory 0x300 = 7
      ∧ (cycle rnd (storeExample 0xF1)).cpu.memory 0x301 = 0 := by
  intro rnd
  exact ⟨rfl, rfl, rfl, rfl, rfl, rfl, rfl⟩

theorem loadLoop_spec (k : Nat) (m : Machine) :
    (forLoop (fun i s => setV s i (s.cpu.memory (s.cpu.I + i))) k m).cpu.memory = m.cpu.memory
    ∧ (forLoop (fun i s => setV s i (s.cpu.memory (s.cpu.I + i))) k m).cpu.I = m.cpu.I
    ∧ ∀ i, (forLoop (fun i s => setV s i (s.cpu.memory (s.cpu.I + i))) k m).cpu.V i
        = if i < k then m.cpu.memory (m.cpu.I + i) else m.cpu.V i := by
  induction k with
  | zero =>
    refine ⟨rfl, rfl, fun i => ?_⟩
    rw [if_neg (by omega)]
    rfl
  | succ k ih =>
    obtain ⟨ihM, ihI, ihV⟩ := ih
    rw [forLoop_succ]
    refine ⟨ihM, ihI, fun i => ?_⟩
    show setAt _ _ _ i = _
    rw [ihM, ihI]
    by_cases hi : i = k
    · subst hi
      rw [setAt_same, if_pos (by omega)]
    · rw [setAt_other _ _ _ _ hi, ihV i]
      by_cases hlt : i < k
      · rw [if_pos hlt, if_pos (by omega)]
      · rw [if_neg hlt, if_neg (by omega)]

/-- The instruction `Fx65` loads `V0 .. V(x-1)` from `memory[I .. I+x-1]` and
leaves every other register, `Vx` included, as it was. -/
theorem load_registers_below_x (m : Machine) (rnd x : Nat) (hx : x < 16)
    (hf : fetch m = 0xF065 + 256 * x) :
    (∀ i, i < x → (cycle rnd m).cpu.V i = m.cpu.memory (m.cpu.I + i))
    ∧ (∀ i, x ≤ i → (cycle rnd m).cpu.V i = m.cpu.V i)
    ∧ (cycle rnd m).cpu.memory = m.cpu.memory := by
  have hw : 0xF065 + 256 * x = 4096 * 15 + 256 * x + 16 * 6 + 5 := by omega
  obtain ⟨-, d2, -, -, d5⟩ := decode_word 15 x 6 5 (by decide) hx (by decide) (by decide)
  have key : cycle rnd m
      = forLoop (fun i s => setV s i (s.cpu.memory (s.cpu.I + i))) x (skip m) := by
    unfold cycle
    simp only [hf, hw]
    rw [execute_opF rnd x 6 5 _ hx (by decide) (by decide)]
    unfold opF
    simp only [d2, d5]
    simp
  obtain ⟨sM, -, sV⟩ := loadLoop_spec x (skip m)
  rw [key]
  refine ⟨fun i hi => ?_, fun i hi => ?_, sM⟩
  · rw [sV, if_pos hi]; rfl
  · rw [sV, if_neg (by omega)]; rfl

/-- C11 (evaluation at the failing input): `F065` with `memory[0x300] = 7`,
`I = 0x300` and `V0 = 0` loads nothing, so `V0` is not `memory[I]`; `F165`
with `memory[0x301] = 9` loads `V0 = 7` and leaves `V1 = 0`.  The loop runs
for `i < x`, one register short of `V0..Vx`. -/
theorem load_registers_stops_before_Vx :
    ∀ rnd : Nat,
      fetch (loadExample 0xF0) = 0xF065
      ∧ (loadExample 0xF0).cpu.memory 0x300 = 7
      ∧ (cycle rnd (loadExample 0xF0)).cpu.V 0 = 0
      ∧ fetch (loadExample 0xF1) = 0xF165
      ∧ (loadExample 0xF1).cpu.memory 0x301 = 9
      ∧ (cycle rnd (loadExample 0xF1)).cpu.V 0 = 7
      ∧ (cycle rnd (loadExample 0xF1)).cpu.V 1 = 0 := by
  intro rnd
  exact ⟨rfl, rfl, rfl, rfl, rfl, rfl, rfl⟩

/-! ## Call and return -/

theorem execute_op2 (rnd nnn : Nat) (m : Machine) (hn : nnn < 4096) :
    execute rnd (0x2000 + nnn) m = op2 (0x2000 + nnn) m := by
  have h1 : (0x2000 + nnn) &&& 0xF000 = 0x2000 := by rw [and_F000]; omega
  unfold execute
  simp only [h1]
  simp

theorem s_nnn_call (nnn : Nat) (hn : nnn < 4096) : s_nnn (0x2000 + nnn) = nnn := by
  unfold s_nnn
  rw [and_FFF]
  omega

/-- The successor state of the call word `2nnn`. -/
theorem cycle_call (rnd nnn : Nat) (m : Machine) (hn : nnn < 4096)
    (hf : fetch m = 0x2000 + nnn) :
    cycle rnd m =
      { m with cpu := { m.cpu with
          stack := setAt m.cpu.stack m.cpu.sp ((m.cpu.pc + 2) % 65536),
          sp := (m.cpu.sp + 1) % 256,
          pc := nnn } } := by
  unfold cycle
  simp only [hf]
  rw [execute_op2 rnd nnn _ hn]
  unfold op2
  rw [s_nnn_call nnn hn]
  rfl

/-- The successor state of the return word `00EE`. -/
theorem cycle_return (rnd : Nat) (m : Machine) (hf : fetch m = 0x00EE) :
    cycle rnd m =
      { m with cpu := { m.cpu with
          sp := toU8 ((m.cpu.sp : Int) - 1),
          pc := m.cpu.stack (toU8 ((m.cpu.sp : Int) - 1)) } } := by
  unfold cycle
  simp only [hf]
  rfl

/-- C12: with `sp < 16`, the call word `2nnn` at `pc = p` (`p + 1 ≤ 4095`) and
the return word `00EE` at `nnn` (`nnn + 1 ≤ 4095`): after the first cycle
`pc = nnn`, `sp` is one larger and `stack[old sp] = p + 2`; after the second
cycle `pc = p + 2` and `sp` has its value from before the call.  Registers,
`I`, memory, timers and framebuffer are unchanged throughout. -/
theorem call_return_round_trip (m : Machine) (r1 r2 p nnn : Nat)
    (hsp : m.cpu.sp < 16) (hpc : m.cpu.pc = p) (hp : p + 1 ≤ 4095) (hn : nnn + 1 ≤ 4095)
    (hcall : fetch m = 0x2000 + nnn)
    (hret : ((m.cpu.memory nnn <<< 8) ||| m.cpu.memory (nnn + 1)) % 65536 = 0x00EE) :
    ((cycle r1 m).cpu.pc = nnn
      ∧ (cycle r1 m).cpu.sp = m.cpu.sp + 1
      ∧ (cycle r1 m).cpu.stack m.cpu.sp = p + 2
      ∧ (cycle r1 m).cpu.V = m.cpu.V ∧ (cycle r1 m).cpu.I = m.cpu.I
      ∧ (cycle r1 m).cpu.memory = m.cpu.memory
      ∧ (cycle r1 m).cpu.delay = m.cpu.delay ∧ (cycle r1 m).cpu.sound = m.cpu.sound
      ∧ (cycle r1 m).screenData = m.screenData)
    ∧ ((cycle r2 (cycle r1 m)).cpu.pc = p + 2
      ∧ (cycle r2 (cycle r1 m)).cpu.sp = m.cpu.sp
      ∧ (cycle r2 (cycle r1 m)).cpu.V = m.cpu.V ∧ (cycle r2 (cycle r1 m)).cpu.I = m.cpu.I
      ∧ (cycle r2 (cycle r1 m)).cpu.memory = m.cpu.memory
      ∧ (cycle r2 (cycle r1 m)).cpu.delay = m.cpu.delay
      ∧ (cycle r2 (cycle r1 m)).cpu.sound = m.cpu.sound
      ∧ (cycle r2 (cycle r1 m)).screenData = m.screenData) := by
  have h1 := cycle_call r1 nnn m (by omega) hcall
  have hpc2 : (m.cpu.pc + 2) % 65536 = p + 2 := by omega
  have hsp1 : (m.cpu.sp + 1) % 256 = m.cpu.sp + 1 := by omega
  rw [hpc2, hsp1] at h1
  have hf2 : fetch (cycle r1 m) = 0x00EE := by
    rw [h1]
    exact hret
  have h2 := cycle_return r2 (cycle r1 m) hf2
  have hsp2 : toU8 (((cycle r1 m).cpu.sp : Int) - 1) = m.cpu.sp := by
    rw [h1]
    show toU8 (((m.cpu.sp + 1 : Nat) : Int) - 1) = m.cpu.sp
    unfold toU8
    omega
  rw [hsp2] at h2
  refine ⟨?_, ?_⟩
  · rw [h1]
    exact ⟨rfl, rfl, setAt_same _ _ _, rfl, rfl, rfl, rfl, rfl, rfl⟩
  · rw [h2, h1]
    exact ⟨setAt_same _ _ _, rfl, rfl, rfl, rfl, rfl, rfl, rfl⟩

/-- Witness for C12: the call `2456` at `0x200` with `sp = 3`, and `00EE` at
`0x456`. -/
theorem call_return_round_trip_witness :
    ((cycle 0 callReturnExample).cpu.pc = 0x456
      ∧ (cycle 0 callReturnExample).cpu.sp = 4
      ∧ (cycle 0 callReturnExample).cpu.stack 3 = 0x202)
    ∧ ((cycle 0 (cycle 0 callReturnExample)).cpu.pc = 0x202
      ∧ (cycle 0 (cycle 0 callReturnExample)).cpu.sp = 3) := by
  have h := call_return_round_trip callReturnExample 0 0 0x200 0x456
    (by decide) rfl (by decide) (by decide) rfl rfl
  exact ⟨⟨h.1.1, h.1.2.1, h.1.2.2.1⟩, ⟨h.2.1, h.2.2.1⟩⟩

/-! ## Timers -/

theorem execute_opE (rnd w : Nat) (m : Machine) (hw : w < 4096) :
    execute rnd (0xE000 + w) m = opE (0xE000 + w) m := by
  have h1 : (0xE000 + w) &&& 0xF000 = 0xE000 := by rw [and_F000]; omega
  unfold execute
  simp only [h1]
  simp

theorem execute_opF_word (rnd w : Nat) (m : Machine) (hw : w < 4096) :
    execute rnd (0xF000 + w) m = opF (0xF000 + w) m := by
  have h1 : (0xF000 + w) &&& 0xF000 = 0xF000 := by rw [and_F000]; omega
  unfold execute
  simp only [h1]
  simp

/-- The `0xE000` case on a word with low nibble `0xE`: skip if the key is
pressed. -/
theorem opE_pressed (w : Nat) (m : Machine) (hw : w < 4096) (hl : w % 16 = 0xE) :
    opE (0xE000 + w) m
      = if m.keyboard (m.cpu.V (w / 256)) ≠ 0 then skip m else m := by
  have hn : (0xE000 + w) &&& 0xF = 0xE := by rw [and_F]; omega
  have hx : s_x (0xE000 + w) = w / 256 := by rw [s_x_eq]; omega
  unfold opE
  rw [hn, hx]
  simp

/-- The `0xE000` case on a word with low nibble `0x1`: skip if the key is not
pressed. -/
theorem opE_released (w : Nat) (m : Machine) (hw : w < 4096) (hl : w % 16 = 0x1) :
    opE (0xE000 + w) m
      = if m.keyboard (m.cpu.V (w / 256)) = 0 then skip m else m := by
  have hn : (0xE000 + w) &&& 0xF = 0x1 := by rw [and_F]; omega
  have hx : s_x (0xE000 + w) = w / 256 := by rw [s_x_eq]; omega
  unfold opE
  rw [hn, hx]
  simp

/-- The `0xE000` case on a word with any other low nibble continues into the
`0xF000` case, which decodes the word as if its high nibble were `0xF`. -/
theorem opE_falls_through (w : Nat) (m : Machine) (_hw : w < 4096)
    (hE : w % 16 ≠ 0xE) (h1 : w % 16 ≠ 0x1) :
    opE (0xE000 + w) m = opF (0xF000 + w) m := by
  have hn : (0xE000 + w) &&& 0xF = w % 16 := by rw [and_F]; omega
  have hx : s_x (0xE000 + w) = s_x (0xF000 + w) := by rw [s_x_eq, s_x_eq]; omega
  have hk : (0xE000 + w) &&& 0xFF = (0xF000 + w) &&& 0xFF := by rw [and_FF, and_FF]; omega
  unfold opE
  rw [hn, if_neg hE, if_neg h1]
  unfold opF
  rw [hx, hk]

/-- C18: with `pc = p` (the fetched word lies inside memory, `p + 1 ≤ 4095`)
and `Vx ≤ 15`: `Ex9E` leaves `pc = p + 4` if `keyboard[Vx]` is pressed and
`pc = p + 2` otherwise; `ExA1` leaves `pc = p + 4` if `keyboard[Vx]` is not
pressed and `pc = p + 2` otherwise.  The successor state differs from the
state before only in `pc`, so the keypad vector, registers, `I`, timers,
memory, stack and framebuffer are unchanged. -/
theorem key_skip_instructions (m : Machine) (rnd x p : Nat) (hx : x < 16)
    (_hV : m.cpu.V x ≤ 15) (hpc : m.cpu.pc = p) (hp : p + 1 ≤ 4095) :
    (fetch m = 0xE09E + 256 * x →
      cycle rnd m = setPc m (if m.keyboard (m.cpu.V x) ≠ 0 then p + 4 else p + 2))
    ∧ (fetch m = 0xE0A1 + 256 * x →
      cycle rnd m = setPc m (if m.keyboard (m.cpu.V x) = 0 then p + 4 else p + 2)) := by
  have hs1 : skip m = setPc m (p + 2) := by
    unfold skip
    rw [hpc]
    congr 1
    omega
  have hs2 : skip (skip m) = setPc m (p + 4) := by
    rw [hs1]
    unfold skip setPc
    simp only
    congr 2
    omega
  constructor
  · intro hf
    have hw : 0xE09E + 256 * x = 0xE000 + (256 * x + 0x9E) := by omega
    have hdiv : (256 * x + 0x9E) / 256 = x := by omega
    unfold cycle
    simp only [hf, hw]
    rw [execute_opE rnd _ _ (by omega), opE_pressed _ _ (by omega) (by omega), hdiv]
    by_cases hk : m.keyboard (m.cpu.V x) ≠ 0
    · have hk' : (skip m).keyboard ((skip m).cpu.V x) ≠ 0 := hk
      rw [if_pos hk', if_pos hk, hs2]
    · have hk' : ¬ (skip m).keyboard ((skip m).cpu.V x) ≠ 0 := hk
      rw [if_neg hk', if_neg hk, hs1]
  · intro hf
    have hw : 0xE0A1 + 256 * x = 0xE000 + (256 * x + 0xA1) := by omega
    have hdiv : (256 * x + 0xA1) / 256 = x := by omega
    unfold cycle
    simp only [hf, hw]
    rw [execute_opE rnd _ _ (by omega), opE_released _ _ (by omega) (by omega), hdiv]
    by_cases hk : m.keyboard (m.cpu.V x) = 0
    · have hk' : (skip m).keyboard ((skip m).cpu.V x) = 0 := hk
      rw [if_pos hk', if_pos hk, hs2]
    · have hk' : ¬ (skip m).keyboard ((skip m).cpu.V x) = 0 := hk
      rw [if_neg hk', if_neg hk, hs1]

/-- Witness for C18: with `V0 = 4` and `pc = 0x200`, `E09E` skips to `0x204`
when key `4` is pressed and `E0A1` goes to `0x202`; with key `4` released it
is the other way round. -/
theorem key_skip_instructions_witness :
    (cycle 0 (keyExample 0x9E 1)).cpu.pc = 0x204
    ∧ (cycle 0 (keyExample 0xA1 1)).cpu.pc = 0x202
    ∧ (cycle 0 (keyExample 0x9E 0)).cpu.pc = 0x202
    ∧ (cycle 0 (keyExample 0xA1 0)).cpu.pc = 0x204
    ∧ (cycle 0 (keyExample 0x9E 1)).keyboard 4 = 1 := by
  have a := (key_skip_instructions (keyExample 0x9E 1) 0 0 0x200 (by decide) (by decide) rfl
    (by decide)).1 rfl
  have b := (key_skip_instructions (keyExample 0xA1 1) 0 0 0x200 (by decide) (by decide) rfl
    (by decide)).2 rfl
  have c := (key_skip_instructions (keyExample 0x9E 0) 0 0 0x200 (by decide) (by decide) rfl
    (by decide)).1 rfl
  have d := (key_skip_instructions (keyExample 0xA1 0) 0 0 0x200 (by decide) (by decide) rfl
    (by decide)).2 rfl
  refine ⟨?_, ?_, ?_, ?_, ?_⟩
  · rw [a]; rfl
  · rw [b]; rfl
  · rw [c]; rfl
  · rw [d]; rfl
  · rw [a]; rfl

/-- The instruction `Fx0A` completes at once: the successor state differs from
the state before only in `pc`, advanced by two. -/
theorem wait_for_key_is_no_op (m : Machine) (rnd x : Nat) (hx : x < 16)
    (hf : fetch m = 0xF00A + 256 * x) : cycle rnd m = skip m := by
  have hw : 0xF00A + 256 * x = 4096 * 15 + 256 * x + 16 * 0 + 10 := by omega
  obtain ⟨-, -, -, -, d5⟩ := decode_word 15 x 0 10 (by decide) hx (by decide) (by decide)
  unfold cycle
  simp only [hf, hw]
  rw [execute_opF rnd x 0 10 _ hx (by decide) (by decide)]
  unfold opF
  simp only [d5]
  simp

/-- C17 (evaluation at the failing input): the word `F00A` at `pc = 0x200`
with no key pressed.  The case `0x0A` is empty, so the cycle completes with
`pc = 0x202`: the program counter has moved past the instruction although no
key was pressed. -/
theorem wait_for_key_advances_pc :
    ∀ rnd : Nat,
      fetch (withWord 0xF0 0x0A) = 0xF00A
      ∧ (∀ k, (withWord 0xF0 0x0A).keyboard k = 0)
      ∧ (withWord 0xF0 0x0A).cpu.pc = 0x200
      ∧ (cycle rnd (withWord 0xF0 0x0A)).cpu.pc = 0x202 := by
  intro rnd
  exact ⟨rfl, fun _ => rfl, rfl, rfl⟩

/-! ## Words that match no defined operation -/

theorem execute_op0 (rnd nnn : Nat) (m : Machine) (hn : nnn < 4096) :
    execute rnd nnn m = op0 nnn m := by
  have h1 : nnn &&& 0xF000 = 0 := by rw [and_F000]; omega
  unfold execute
  simp only [h1]
  simp

theorem execute_op5 (rnd x y n : Nat) (m : Machine) (hx : x < 16) (hy : y < 16) (hn : n < 16) :
    execute rnd (4096 * 5 + 256 * x + 16 * y + n) m
      = if m.cpu.V x = m.cpu.V y then skip m else m := by
  obtain ⟨h1, d2, d3, -, -⟩ := decode_word 5 x y n (by decide) hx hy hn
  unfold execute
  simp only [h1, d2, d3]
  simp

theorem execute_op9 (rnd x y n : Nat) (m : Machine) (hx : x < 16) (hy : y < 16) (hn : n < 16) :
    execute rnd (4096 * 9 + 256 * x + 16 * y + n) m
      = if m.cpu.V x ≠ m.cpu.V y then skip m else m := by
  obtain ⟨h1, d2, d3, -, -⟩ := decode_word 9 x y n (by decide) hx hy hn
  unfold execute
  simp only [h1, d2, d3]
  simp

/-- C15 refuted as stated: the word `8008` matches no defined operation, and
`cycle` returns the successor state that differs from the state before only
in `pc`, advanced by two: the word completes as a silent no-op. -/
theorem undefined_word_counterexample :
    fetch (withWord 0x80 0x08) = 0x8008
    ∧ cycle 0 (withWord 0x80 0x08) = skip (withWord 0x80 0x08)
    ∧ (cycle 0 (withWord 0x80 0x08)).cpu.pc = 0x202 :=
  ⟨rfl, rfl, rfl⟩

/-- C15 as amended: `cycle` has no decode fault and returns a successor state
for every word.  For `8xy8..8xyD` and `8xyF`, for `0nnn` other than `00E0` and
`00EE`, and for `Fxkk` with a low byte outside `07 0A 15 18 1E 29 33 55 65`,
the successor differs from the state before only in `pc`, advanced by two.
`5xyN` and `9xyN` with `N ≠ 0` complete as `5xy0` and `9xy0` (skip if
`Vx = Vy`, skip if `Vx ≠ Vy`).  `Exkk` other than `Ex9E` and `ExA1` completes
as skip-if-pressed when its low nibble is `0xE`, as skip-if-not-pressed when
it is `0x1`, and otherwise as the word `Fxkk`. -/
theorem undefined_words_complete (m : Machine) (rnd x y : Nat) (hx : x < 16) (hy : y < 16) :
    (∀ n, 8 ≤ n → n < 16 → n ≠ 0xE → fetch m = 0x8000 + 256 * x + 16 * y + n →
        cycle rnd m = skip m)
    ∧ (∀ nnn, nnn < 4096 → nnn ≠ 0x0E0 → nnn ≠ 0x0EE → fetch m = nnn →
        cycle rnd m = skip m)
    ∧ (∀ kk, kk < 256 → kk ≠ 0x07 → kk ≠ 0x0A → kk ≠ 0x15 → kk ≠ 0x18 → kk ≠ 0x1E →
        kk ≠ 0x29 → kk ≠ 0x33 → kk ≠ 0x55 → kk ≠ 0x65 →
        fetch m = 0xF000 + 256 * x + kk → cycle rnd m = skip m)
    ∧ (∀ n, 0 < n → n < 16 → fetch m = 0x5000 + 256 * x + 16 * y + n →
        cycle rnd m = if m.cpu.V x = m.cpu.V y then skip (skip m) else skip m)
    ∧ (∀ n, 0 < n → n < 16 → fetch m = 0x9000 + 256 * x + 16 * y + n →
        cycle rnd m = if m.cpu.V x ≠ m.cpu.V y then skip (skip m) else skip m)
    ∧ (∀ kk, kk < 256 → kk ≠ 0x9E → kk ≠ 0xA1 → fetch m = 0xE000 + 256 * x + kk →
        (kk % 16 = 0xE →
          cycle rnd m = if m.keyboard (m.cpu.V x) ≠ 0 then skip (skip m) else skip m)
        ∧ (kk % 16 = 0x1 →
          cycle rnd m = if m.keyboard (m.cpu.V x) = 0 then skip (skip m) else skip m)
        ∧ (kk % 16 ≠ 0xE → kk % 16 ≠ 0x1 →
          cycle rnd m = execute rnd (0xF000 + 256 * x + kk) (skip m))) := by
  refine ⟨?_, ?_, ?_, ?_, ?_, ?_⟩
  · intro n h8 h16 hE hf
    have hw : 0x8000 + 256 * x + 16 * y + n = 4096 * 8 + 256 * x + 16 * y + n := by omega
    obtain ⟨-, -, -, d4, -⟩ := decode_word 8 x y n (by decide) hx hy h16
    unfold cycle
    simp only [hf, hw]
    rw [execute_op8 rnd x y n _ hx hy h16]
    unfold op8
    simp only [d4]
    iterate 8 rw [if_neg (show ¬ n = _ by omega)]
    rw [if_neg hE]
  · intro nnn hn h0 hE hf
    unfold cycle
    simp only [hf]
    rw [execute_op0 rnd nnn _ hn]
    unfold op0
    simp only
    rw [if_neg h0, if_neg hE]
  · intro kk hkk k1 k2 k3 k4 k5 k6 k7 k8 k9 hf
    have hw : 0xF000 + 256 * x + kk = 4096 * 15 + 256 * x + 16 * (kk / 16) + kk % 16 := by omega
    obtain ⟨-, -, -, -, d5⟩ :=
      decode_word 15 x (kk / 16) (kk % 16) (by decide) hx (by omega) (by omega)
    have d5' : (4096 * 15 + 256 * x + 16 * (kk / 16) + kk % 16) &&& 0xFF = kk := by
      rw [d5]; omega
    unfold cycle
    simp only [hf, hw]
    rw [execute_opF rnd x (kk / 16) (kk % 16) _ hx (by omega) (by omega)]
    unfold opF
    simp only [d5']
    rw [if_neg k1, if_neg k2, if_neg k3, if_neg k4, if_neg k5, if_neg k6, if_neg k7,
      if_neg k8, if_neg k9]
  · intro n _ h16 hf
    have hw : 0x5000 + 256 * x + 16 * y + n = 4096 * 5 + 256 * x + 16 * y + n := by omega
    unfold cycle
    simp only [hf, hw]
    rw [execute_op5 rnd x y n _ hx hy h16]
    rfl
  · intro n _ h16 hf
    have hw : 0x9000 + 256 * x + 16 * y + n = 4096 * 9 + 256 * x + 16 * y + n := by omega
    unfold cycle
    simp only [hf, hw]
    rw [execute_op9 rnd x y n _ hx hy h16]
    rfl
  · intro kk hkk _ _ hf
    have hw : 0xE000 + 256 * x + kk = 0xE000 + (256 * x + kk) := by omega
    have hdiv : (256 * x + kk) / 256 = x := by omega
    have hc : cycle rnd m = opE (0xE000 + (256 * x + kk)) (skip m) := by
      unfold cycle
      simp only [hf, hw]
      rw [execute_opE rnd _ _ (by omega)]
    refine ⟨?_, ?_, ?_⟩
    · intro hl
      rw [hc, opE_pressed _ _ (by omega) (by omega), hdiv]
      rfl
    · intro hl
      rw [hc, opE_released _ _ (by omega) (by omega), hdiv]
      rfl
    · intro hE h1
      have hw2 : 0xF000 + 256 * x + kk = 0xF000 + (256 * x + kk) := by omega
      rw [hc, opE_falls_through _ _ (by omega) (by omega) (by omega), hw2,
        execute_opF_word rnd (256 * x + kk) _ (by omega)]

/-- Witness for C15 as amended: `8008`, `0123` and `F0FF` only advance `pc`,
and `5001` with `V0 = V0` skips as `5000` does. -/
theorem undefined_words_complete_witness :
    cycle 0 (withWord 0x80 0x08) = skip (withWord 0x80 0x08)
    ∧ cycle 0 (withWord 0x01 0x23) = skip (withWord 0x01 0x23)
    ∧ cycle 0 (withWord 0xF0 0xFF) = skip (withWord 0xF0 0xFF)
    ∧ (cycle 0 (withWord 0x50 0x01)).cpu.pc = 0x204 := by
  refine ⟨?_, ?_, ?_, ?_⟩
  · exact (undefined_words_complete (withWord 0x80 0x08) 0 0 0 (by decide) (by decide)).1
      8 (by decide) (by decide) (by decide) rfl
  · exact (undefined_words_complete (withWord 0x01 0x23) 0 0 0 (by decide) (by decide)).2.1
      0x123 (by decide) (by decide) (by decide) rfl
  · exact (undefined_words_complete (withWord 0xF0 0xFF) 0 0 0 (by decide) (by decide)).2.2.1
      0xFF (by decide) (by decide) (by decide) (by decide) (by decide) (by decide)
      (by decide) (by decide) (by decide) (by decide) rfl
  · have h := (undefined_words_complete (withWord 0x50 0x01) 0 0 0 (by decide)
      (by decide)).2.2.2.1 1 (by decide) (by decide) rfl
    rw [h]
    rfl

/-! ## Stack bounds -/

/-- C16 refuted as stated: the return word `00EE` in a state with `sp = 0` is
not reported; `cycle` returns a successor state in which `sp` has wrapped to
`255`, outside the range `0..16`. -/
theorem stack_fault_counterexample :
    fetch (withWord 0x00 0xEE) = 0x00EE
    ∧ (withWord 0x00 0xEE).cpu.sp = 0
    ∧ (cycle 0 (withWord 0x00 0xEE)).cpu.sp = 255
    ∧ ¬ ((cycle 0 (withWord 0x00 0xEE)).cpu.sp ≤ 16) :=
  ⟨rfl, rfl, rfl, by decide⟩

/-- C16 as amended: a call `2nnn` in a state with `sp < 16` writes the return
address to the slot `stack[sp]`, whose index is in `0..15`, changes no other
slot and leaves `sp + 1 ≤ 16`; a return `00EE` in a state with `0 < sp ≤ 16`
reads the slot `stack[sp - 1]`, whose index is in `0..15`, changes no slot and
leaves `sp - 1`.  There is no stack-fault detection: a return with `sp = 0`
completes with a successor state in which `sp` has wrapped to `255`. -/
theorem stack_access_in_range (m : Machine) (rnd nnn : Nat) (hn : nnn < 4096) :
    (m.cpu.sp < 16 → fetch m = 0x2000 + nnn →
        (cycle rnd m).cpu.stack = setAt m.cpu.stack m.cpu.sp ((m.cpu.pc + 2) % 65536)
        ∧ (∀ i, i ≠ m.cpu.sp → (cycle rnd m).cpu.stack i = m.cpu.stack i)
        ∧ (cycle rnd m).cpu.sp = m.cpu.sp + 1
        ∧ (cycle rnd m).cpu.sp ≤ 16
        ∧ (cycle rnd m).cpu.pc = nnn)
    ∧ (0 < m.cpu.sp → m.cpu.sp ≤ 16 → fetch m = 0x00EE →
        (cycle rnd m).cpu.pc = m.cpu.stack (m.cpu.sp - 1)
        ∧ m.cpu.sp - 1 < 16
        ∧ (cycle rnd m).cpu.stack = m.cpu.stack
        ∧ (cycle rnd m).cpu.sp = m.cpu.sp - 1)
    ∧ (m.cpu.sp = 0 → fetch m = 0x00EE →
        (cycle rnd m).cpu.sp = 255
        ∧ (cycle rnd m).cpu.stack = m.cpu.stack) := by
  refine ⟨?_, ?_, ?_⟩
  · intro hsp hf
    have h1 := cycle_call rnd nnn m hn hf
    have hsp1 : (m.cpu.sp + 1) % 256 = m.cpu.sp + 1 := by omega
    rw [hsp1] at h1
    rw [h1]
    refine ⟨rfl, fun i hi => setAt_other _ _ _ _ hi, rfl, ?_, rfl⟩
    show m.cpu.sp + 1 ≤ 16
    omega
  · intro h0 h16 hf
    have h2 := cycle_return rnd m hf
    have hsp : toU8 ((m.cpu.sp : Int) - 1) = m.cpu.sp - 1 := by
      unfold toU8
      omega
    rw [hsp] at h2
    rw [h2]
    exact ⟨rfl, by omega, rfl, rfl⟩
  · intro h0 hf
    have h2 := cycle_return rnd m hf
    have hsp : toU8 ((m.cpu.sp : Int) - 1) = 255 := by
      unfold toU8
      omega
    rw [hsp] at h2
    rw [h2]
    exact ⟨rfl, rfl⟩

/-- Witness for C16 as amended: the call `2456` with `sp = 3` writes slot `3`
and leaves `sp = 4`; the return `00EE` with `sp = 0` leaves `sp = 255`. -/
theorem stack_access_in_range_witness :
    ((cycle 0 callReturnExample).cpu.stack 3 = 0x202
      ∧ (cycle 0 callReturnExample).cpu.sp = 4)
    ∧ (cycle 0 (withWord 0x00 0xEE)).cpu.sp = 255 := by
  have hc := (stack_access_in_range callReturnExample 0 0x456 (by decide)).1 (by decide) rfl
  have hr := (stack_access_in_range (withWord 0x00 0xEE) 0 0 (by decide)).2.2 rfl rfl
  refine ⟨⟨?_, hc.2.2.1⟩, hr.1⟩
  rw [hc.1]
  rfl

/-! ## The keyboard case and the register case -/

theorem opF_delay (w : Nat) (m : Machine) (hk : w &&& 0xFF = 0x15) :
    opF w m = { m with cpu := { m.cpu with delay := m.cpu.V (s_x w) } } := by
  unfold opF
  simp only [hk]
  simp

theorem opF_read_delay (w : Nat) (m : Machine) (hk : w &&& 0xFF = 0x07) :
    opF w m = setV m (s_x w) m.cpu.delay := by
  unfold opF
  simp only [hk]
  simp

theorem opF_bcd (w : Nat) (m : Machine) (hk : w &&& 0xFF = 0x33) :
    opF w m =
      setMem (setMem (setMem m (m.cpu.I + 2) (m.cpu.V (s_x w) % 10))
        (m.cpu.I + 1) (m.cpu.V (s_x w) / 10 % 10)) m.cpu.I (m.cpu.V (s_x w) / 10 / 10 % 10) := by
  unfold opF
  simp only [hk]
  simp [setMem]

/-- C20: for a word `Exkk` whose low nibble is neither `0xE` nor `0x1`, `cycle`
produces the successor state that the dispatch produces for the word `Fxkk` in
the same state; so `Ex15` sets the delay timer to `Vx`, `Ex07` sets `Vx` to the
delay timer and `Ex33` writes the decimal digits of `Vx` at `I`.  A word
`Exkk` with low nibble `0xE` acts as skip-if-pressed and one with low nibble
`0x1` as skip-if-not-pressed, whatever its middle nibble. -/
theorem keyboard_case_falls_through (m : Machine) (rnd x kk : Nat)
    (hx : x < 16) (hkk : kk < 256) (hf : fetch m = 0xE000 + 256 * x + kk) :
    (kk % 16 ≠ 0xE → kk % 16 ≠ 0x1 →
        cycle rnd m = execute rnd (0xF000 + 256 * x + kk) (skip m))
    ∧ (kk = 0x15 → (cycle rnd m).cpu.delay = m.cpu.V x)
    ∧ (kk = 0x07 → (cycle rnd m).cpu.V x = m.cpu.delay)
    ∧ (kk = 0x33 →
        (cycle rnd m).cpu.memory m.cpu.I = m.cpu.V x / 10 / 10 % 10
        ∧ (cycle rnd m).cpu.memory (m.cpu.I + 1) = m.cpu.V x / 10 % 10
        ∧ (cycle rnd m).cpu.memory (m.cpu.I + 2) = m.cpu.V x % 10)
    ∧ (kk % 16 = 0xE →
        cycle rnd m = if m.keyboard (m.cpu.V x) ≠ 0 then skip (skip m) else skip m)
    ∧ (kk % 16 = 0x1 →
        cycle rnd m = if m.keyboard (m.cpu.V x) = 0 then skip (skip m) else skip m) := by
  have hw : 0xE000 + 256 * x + kk = 0xE000 + (256 * x + kk) := by omega
  have hw2 : 0xF000 + 256 * x + kk = 0xF000 + (256 * x + kk) := by omega
  have hdiv : (256 * x + kk) / 256 = x := by omega
  have hc : cycle rnd m = opE (0xE000 + (256 * x + kk)) (skip m) := by
    unfold cycle
    simp only [hf, hw]
    rw [execute_opE rnd _ _ (by omega)]
  have hthrough : kk % 16 ≠ 0xE → kk % 16 ≠ 0x1 →
      cycle rnd m = opF (0xF000 + (256 * x + kk)) (skip m) := by
    intro hE h1
    rw [hc, opE_falls_through _ _ (by omega) (by omega) (by omega)]
  have hsx : s_x (0xF000 + (256 * x + kk)) = x := by rw [s_x_eq]; omega
  have hlow : (0xF000 + (256 * x + kk)) &&& 0xFF = kk := by rw [and_FF]; omega
  refine ⟨?_, ?_, ?_, ?_, ?_, ?_⟩
  · intro hE h1
    rw [hthrough hE h1, hw2, execute_opF_word rnd (256 * x + kk) _ (by omega)]
  · intro hk
    rw [hthrough (by omega) (by omega), opF_delay _ _ (by rw [hlow, hk]), hsx]
    rfl
  · intro hk
    rw [hthrough (by omega) (by omega), opF_read_delay _ _ (by rw [hlow, hk]), hsx]
    simp [setV, skip, setPc]
  · intro hk
    rw [hthrough (by omega) (by omega), opF_bcd _ _ (by rw [hlow, hk]), hsx]
    refine ⟨?_, ?_, ?_⟩
    · simp [setMem, skip, setPc]
    · simp [setMem, setAt, skip, setPc]
    · simp [setMem, setAt, skip, setPc]
  · intro hl
    rw [hc, opE_pressed _ _ (by omega) (by omega), hdiv]
    rfl
  · intro hl
    rw [hc, opE_released _ _ (by omega) (by omega), hdiv]
    rfl

/-- Witness for C20: with `V0 = 157`, `I = 0x300` and delay `9`, the word
`E015` sets the delay timer to `157`, `E007` sets `V0 = 9`, `E033` stores
`1, 5, 7`, and `E00E` (middle nibble `0`, low nibble `0xE`, no key pressed)
only advances `pc`. -/
theorem keyboard_case_falls_through_witness :
    (cycle 0 (fallThroughExample 0x15)).cpu.delay = 157
    ∧ (cycle 0 (fallThroughExample 0x07)).cpu.V 0 = 9
    ∧ ((cycle 0 (fallThroughExample 0x33)).cpu.memory 0x300 = 1
      ∧ (cycle 0 (fallThroughExample 0x33)).cpu.memory 0x301 = 5
      ∧ (cycle 0 (fallThroughExample 0x33)).cpu.memory 0x302 = 7)
    ∧ (cycle 0 (fallThroughExample 0x0E)).cpu.pc = 0x202 := by
  have a := (keyboard_case_falls_through (fallThroughExample 0x15) 0 0 0x15 (by decide)
    (by decide) rfl).2.1 rfl
  have b := (keyboard_case_falls_through (fallThroughExample 0x07) 0 0 0x07 (by decide)
    (by decide) rfl).2.2.1 rfl
  have c := (keyboard_case_falls_through (fallThroughExample 0x33) 0 0 0x33 (by decide)
    (by decide) rfl).2.2.2.1 rfl
  have d := (keyboard_case_falls_through (fallThroughExample 0x0E) 0 0 0x0E (by decide)
    (by decide) rfl).2.2.2.2.1 (by decide)
  refine ⟨a, b, ⟨c.1, c.2.1, c.2.2⟩, ?_⟩
  rw [d]
  rfl

/-! ## Framebuffer cells are bits -/

theorem binaryScreen_of_screen_eq {m m' : Machine} (h : m'.screenData = m.screenData)
    (hb : BinaryScreen m) : BinaryScreen m' := by
  intro r c hr hc
  rw [h]
  exact hb r c hr hc

theorem cls_binary (m : Machine) : BinaryScreen (cls m) := by
  intro r c hr hc
  left
  show (if r < 32 ∧ c < 64 then 0 else m.screenData r c) = 0
  rw [if_pos ⟨hr, hc⟩]

theorem xor_one_bit (a : Nat) (h : a = 0 ∨ a = 1) : a ^^^ 1 = 0 ∨ a ^^^ 1 = 1 := by
  rcases h with h | h
  · right; rw [h]; rfl
  · left; rw [h]; rfl

theorem drawPixel_binary (x y j c i : Nat) (m : Machine) (hb : BinaryScreen m) :
    BinaryScreen (drawPixel x y j c i m) := by
  unfold drawPixel
  by_cases h : (c >>> (8 - i - 1)) &&& 1 ≠ 0
  · rw [if_pos h]
    have hbit : (c >>> (8 - i - 1)) &&& 1 = 1 := by
      have := Nat.and_one_is_mod (c >>> (8 - i - 1))
      omega
    intro r col hr hc
    show setCell m.screenData ((y + j) % 32) ((x + i) % 64)
      (m.screenData ((y + j) % 32) ((x + i) % 64) ^^^ ((c >>> (8 - i - 1)) &&& 1)) r col = 0
      ∨ setCell m.screenData ((y + j) % 32) ((x + i) % 64)
      (m.screenData ((y + j) % 32) ((x + i) % 64) ^^^ ((c >>> (8 - i - 1)) &&& 1)) r col = 1
    rw [hbit]
    unfold setCell
    by_cases hcell : r = (y + j) % 32 ∧ col = (x + i) % 64
    · rw [if_pos hcell]
      exact xor_one_bit _ (hb _ _ (Nat.mod_lt _ (by decide)) (Nat.mod_lt _ (by decide)))
    · rw [if_neg hcell]
      exact hb r col hr hc
  · rw [if_neg h]
    exact hb

theorem forLoop_preserves {σ : Type} (P : σ → Prop) (body : Nat → σ → σ)
    (hstep : ∀ i s, P s → P (body i s)) (n : Nat) (s : σ) (hs : P s) :
    P (forLoop body n s) := by
  induction n with
  | zero => exact hs
  | succ k ih => exact hstep k _ ih

theorem drawSprite_binary (x y n : Nat) (m : Machine) (hb : BinaryScreen m) :
    BinaryScreen (drawSprite x y n m) :=
  forLoop_preserves BinaryScreen (drawRow x y)
    (fun j s hs => forLoop_preserves BinaryScreen (drawPixel x y j _)
      (fun i t ht => drawPixel_binary x y j _ i t ht) 8 s hs) n m hb

theorem forLoop_screen (body : Nat → Machine → Machine)
    (hstep : ∀ i s, (body i s).screenData = s.screenData) (n : Nat) (m : Machine) :
    (forLoop body n m).screenData = m.screenData := by
  induction n with
  | zero => rfl
  | succ k ih => rw [forLoop_succ, hstep, ih]

theorem op8_screen (w : Nat) (m : Machine) : (op8 w m).screenData = m.screenData := by
  unfold op8
  simp only
  split_ifs <;> rfl

theorem opF_screen (w : Nat) (m : Machine) : (opF w m).screenData = m.screenData := by
  unfold opF
  simp only
  split_ifs
  any_goals rfl
  · apply forLoop_screen
    intro i s
    rfl
  · apply forLoop_screen
    intro i s
    rfl

theorem opE_screen (w : Nat) (m : Machine) : (opE w m).screenData = m.screenData := by
  unfold opE
  split_ifs
  any_goals rfl
  exact opF_screen w m

theorem op0_binary (w : Nat) (m : Machine) (hb : BinaryScreen m) : BinaryScreen (op0 w m) := by
  unfold op0
  simp only
  by_cases h0 : w = 0x00E0
  · have hE : ¬ w = 0x00EE := by omega
    rw [if_pos h0, if_neg hE]
    exact cls_binary m
  · rw [if_neg h0]
    by_cases hE : w = 0x00EE
    · rw [if_pos hE]
      exact binaryScreen_of_screen_eq rfl hb
    · rw [if_neg hE]
      exact hb

theorem ite_binary (c : Prop) [Decidable c] (a b : Machine) (ha : BinaryScreen a)
    (hb : BinaryScreen b) : BinaryScreen (if c then a else b) := by
  by_cases h : c
  · rw [if_pos h]; exact ha
  · rw [if_neg h]; exact hb

theorem execute_binary (rnd w : Nat) (m : Machine) (hb : BinaryScreen m) :
    BinaryScreen (execute rnd w m) := by
  have hskip : BinaryScreen (skip m) := binaryScreen_of_screen_eq rfl hb
  unfold execute
  lift_lets
  intro h x y
  refine ite_binary _ _ _ (op0_binary w m hb) ?_
  refine ite_binary _ _ _ (binaryScreen_of_screen_eq rfl hb) ?_
  refine ite_binary _ _ _ (binaryScreen_of_screen_eq rfl hb) ?_
  refine ite_binary _ _ _ (ite_binary _ _ _ hskip hb) ?_
  refine ite_binary _ _ _ (ite_binary _ _ _ hskip hb) ?_
  refine ite_binary _ _ _ (ite_binary _ _ _ hskip hb) ?_
  refine ite_binary _ _ _ (binaryScreen_of_screen_eq rfl hb) ?_
  refine ite_binary _ _ _ (binaryScreen_of_screen_eq rfl hb) ?_
  refine ite_binary _ _ _ (binaryScreen_of_screen_eq (op8_screen w m) hb) ?_
  refine ite_binary _ _ _ (ite_binary _ _ _ hskip hb) ?_
  refine ite_binary _ _ _ (binaryScreen_of_screen_eq rfl hb) ?_
  refine ite_binary _ _ _ (binaryScreen_of_screen_eq rfl hb) ?_
  refine ite_binary _ _ _ (binaryScreen_of_screen_eq rfl hb) ?_
  refine ite_binary _ _ _ (drawSprite_binary _ _ _ m hb) ?_
  refine ite_binary _ _ _ (binaryScreen_of_screen_eq (opE_screen w m) hb) ?_
  exact ite_binary _ _ _ (binaryScreen_of_screen_eq (opF_screen w m) hb) hb

/-- A call of `cycle` that stays inside the arrays keeps every framebuffer cell
`0` or `1`. -/
theorem cycle_binary (rnd : Nat) (m : Machine) (_hin : InBounds m) (hb : BinaryScreen m) :
    BinaryScreen (cycle rnd m) :=
  execute_binary rnd (fetch m) (skip m) (binaryScreen_of_screen_eq rfl hb)

theorem fetch_bytes (m : Machine) (hi lo : Nat) (h0 : m.cpu.memory m.cpu.pc = hi)
    (h1 : m.cpu.memory (m.cpu.pc + 1) = lo) : fetch m = ((hi <<< 8) ||| lo) % 65536 := by
  unfold fetch
  rw [h0, h1]

/-- The three cycles of the program `6A05 A050 DAB2` amount to one call
`drawSprite(5, 0, 2)` on a state with `pc = 0x206`, `VA = 5`, `I = 0x050`,
`VF = 0`, the two sprite bytes at `I` and a dark screen. -/
theorem end_to_end_reduces (m0 : Machine) (r1 r2 r3 s0 s1 : Nat) :
    ∃ T : Machine,
      cycle r3 (cycle r2 (cycle r1 (endToEndStart m0 s0 s1))) = drawSprite 5 0 2 T
      ∧ T.cpu.pc = 0x206 ∧ T.cpu.V 0xA = 5 ∧ T.cpu.I = 0x050 ∧ T.cpu.V 0xF = 0
      ∧ T.cpu.memory 0x050 = s0 ∧ T.cpu.memory 0x051 = s1
      ∧ (∀ r c, r < 32 → c < 64 → T.screenData r c = 0) := by
  have f1 : fetch (endToEndStart m0 s0 s1) = 0x6A05 :=
    (fetch_bytes _ 0x6A 0x05 rfl rfl).trans (by decide)
  have c1 : cycle r1 (endToEndStart m0 s0 s1) = setV (skip (endToEndStart m0 s0 s1)) 0xA 5 := by
    unfold cycle
    rw [f1]
    rfl
  have f2 : fetch (setV (skip (endToEndStart m0 s0 s1)) 0xA 5) = 0xA050 :=
    (fetch_bytes _ 0xA0 0x50 rfl rfl).trans (by decide)
  have c2 : cycle r2 (setV (skip (endToEndStart m0 s0 s1)) 0xA 5)
      = { skip (setV (skip (endToEndStart m0 s0 s1)) 0xA 5) with
          cpu := { (skip (setV (skip (endToEndStart m0 s0 s1)) 0xA 5)).cpu with I := 0x050 } } := by
    unfold cycle
    rw [f2]
    rfl
  have f3 : fetch { skip (setV (skip (endToEndStart m0 s0 s1)) 0xA 5) with
      cpu := { (skip (setV (skip (endToEndStart m0 s0 s1)) 0xA 5)).cpu with I := 0x050 } }
      = 0xDAB2 :=
    (fetch_bytes _ 0xDA 0xB2 rfl rfl).trans (by decide)
  refine ⟨skip { skip (setV (skip (endToEndStart m0 s0 s1)) 0xA 5) with
      cpu := { (skip (setV (skip (endToEndStart m0 s0 s1)) 0xA 5)).cpu with I := 0x050 } },
    ?_, rfl, rfl, rfl, rfl, rfl, rfl, ?_⟩
  · rw [c1, c2]
    unfold cycle
    rw [f3]
    rfl
  · intro r c hr hc
    show (if r < 32 ∧ c < 64 then 0 else m0.screenData r c) = 0
    rw [if_pos ⟨hr, hc⟩]

/-- C14: from the state produced by `initializeCPU` and `loadSprites` with a
cleared framebuffer, the program bytes `6A 05 A0 50 DA B2` at `0x200..0x205`
and any two sprite bytes `s0`, `s1` at `0x050`, `0x051`, three successive calls
of `cycle` leave `pc = 0x206`, `VA = 5`, `I = 0x050`, `VF = 0`, cell
`(r, 5 + i)` equal to bit `7 - i` of `s_r` for `r` in `{0, 1}` and `i` in
`0..7`, and every other cell `0`. -/
theorem end_to_end_sprite (m0 : Machine) (r1 r2 r3 s0 s1 : Nat)
    (_hs0 : s0 < 256) (_hs1 : s1 < 256) :
    (cycle r3 (cycle r2 (cycle r1 (endToEndStart m0 s0 s1)))).cpu.pc = 0x206
    ∧ (cycle r3 (cycle r2 (cycle r1 (endToEndStart m0 s0 s1)))).cpu.V 0xA = 5
    ∧ (cycle r3 (cycle r2 (cycle r1 (endToEndStart m0 s0 s1)))).cpu.I = 0x050
    ∧ (cycle r3 (cycle r2 (cycle r1 (endToEndStart m0 s0 s1)))).cpu.V 0xF = 0
    ∧ (∀ i, i < 8 →
        (cycle r3 (cycle r2 (cycle r1 (endToEndStart m0 s0 s1)))).screenData 0 (5 + i)
          = s0 / 2 ^ (7 - i) % 2)
    ∧ (∀ i, i < 8 →
        (cycle r3 (cycle r2 (cycle r1 (endToEndStart m0 s0 s1)))).screenData 1 (5 + i)
          = s1 / 2 ^ (7 - i) % 2)
    ∧ (∀ r c, r < 32 → c < 64 → ¬ (r < 2 ∧ 5 ≤ c ∧ c < 13) →
        (cycle r3 (cycle r2 (cycle r1 (endToEndStart m0 s0 s1)))).screenData r c = 0) := by
  obtain ⟨T, hT, tpc, tA, tI, tF, t0, t1, tscr⟩ := end_to_end_reduces m0 r1 r2 r3 s0 s1
  rw [hT]
  obtain ⟨d1, d2, d3, d4⟩ := drawRows_spec 5 0 T 2 (by decide)
  obtain ⟨-, fI, -, -, fpc, -, -, -, fV⟩ := drawSprite_frame 5 0 2 T
  have hrow : ∀ j, j < 2 → T.cpu.memory (T.cpu.I + j) = if j = 0 then s0 else s1 := by
    intro j hj
    rw [tI]
    interval_cases j
    · exact t0
    · exact t1
  have hitrange : ∀ r col, SpriteHits T 5 0 2 r col → r < 32 ∧ col < 64 := by
    rintro r col ⟨j, _, i, _, hr, hc, _⟩
    omega
  have cell : ∀ (j i : Nat) (b : Nat), j < 2 → i < 8 →
      T.cpu.memory (T.cpu.I + j) / 2 ^ (7 - i) % 2 = b →
      (drawSprite 5 0 2 T).screenData j (5 + i) = b := by
    intro j i b hj hi hb
    by_cases hbit : T.cpu.memory (T.cpu.I + j) / 2 ^ (7 - i) % 2 = 1
    · rw [d1 j (5 + i) ⟨j, hj, i, hi, by omega, by omega, hbit⟩, tscr j (5 + i) (by omega) (by omega),
        ← hb, hbit]
      rfl
    · have hno : ¬ SpriteHits T 5 0 2 j (5 + i) := by
        rintro ⟨j', hj', i', hi', hr, hc, hb'⟩
        have e1 : j' = j := by omega
        have e2 : i' = i := by omega
        subst e1; subst e2
        exact hbit hb'
      rw [d2 j (5 + i) hno, tscr j (5 + i) (by omega) (by omega), ← hb]
      omega
  refine ⟨fpc.trans tpc, (fV 0xA (by decide)).trans tA, fI.trans tI, ?_, ?_, ?_, ?_⟩
  · by_cases hany : ∃ r col, SpriteHits T 5 0 2 r col
    · apply d3 0 _ hany
      intro r col hh
      exact tscr r col (hitrange r col hh).1 (hitrange r col hh).2
    · rw [d4 (fun r col hh => hany ⟨r, col, hh⟩)]
      exact tF
  · intro i hi
    apply cell 0 i _ (by decide) hi
    rw [hrow 0 (by decide)]
    rfl
  · intro i hi
    apply cell 1 i _ (by decide) hi
    rw [hrow 1 (by decide)]
    rfl
  · intro r c hr hc hout
    have hno : ¬ SpriteHits T 5 0 2 r c := by
      rintro ⟨j, hj, i, hi, hr', hc', _⟩
      apply hout
      omega
    rw [d2 r c hno]
    exact tscr r c hr hc

/-- Witness for C14: with the sprite bytes `A5 3C` the three cycles leave
`pc = 0x206`, `VA = 5`, `I = 0x050`, `VF = 0`, cell `(0, 5)` lit (bit 7 of
`A5`) and cell `(1, 5)` dark (bit 7 of `3C`). -/
theorem end_to_end_sprite_witness :
    (cycle 0 (cycle 0 (cycle 0 (endToEndStart zeroMachine 0xA5 0x3C)))).cpu.pc = 0x206
    ∧ (cycle 0 (cycle 0 (cycle 0 (endToEndStart zeroMachine 0xA5 0x3C)))).cpu.V 0xF = 0
    ∧ (cycle 0 (cycle 0 (cycle 0 (endToEndStart zeroMachine 0xA5 0x3C)))).screenData 0 5 = 1
    ∧ (cycle 0 (cycle 0 (cycle 0 (endToEndStart zeroMachine 0xA5 0x3C)))).screenData 1 5 = 0 := by
  have h := end_to_end_sprite zeroMachine 0 0 0 0xA5 0x3C (by decide) (by decide)
  exact ⟨h.1, h.2.2.2.1, h.2.2.2.2.1 0 (by decide), h.2.2.2.2.2.1 0 (by decide)⟩

/-! ## The timers inside the execution loop -/

theorem executionLoop_succ (keys : Nat → Nat → Int) (rnds : Nat → Nat) (k : Nat) (m : Machine) :
    executionLoop keys rnds (k + 1) m
      = loopPass (keys k) (rnds k) (executionLoop keys rnds k m) := rfl

theorem loopPass_binary (keys : Nat → Int) (rnd : Nat) (m : Machine) (hin : InBounds m)
    (hb : BinaryScreen m) : BinaryScreen (loopPass keys rnd m) := by
  unfold loopPass
  lift_lets
  intro m1 m2
  have h1 : BinaryScreen m1 := cycle_binary rnd _ hin (binaryScreen_of_screen_eq rfl hb)
  have h2 : BinaryScreen m2 := ite_binary _ _ _ (binaryScreen_of_screen_eq rfl h1) h1
  have h3 : (tickTimers m2).screenData = m2.screenData := by
    unfold tickTimers
    simp only
    split_ifs <;> rfl
  exact binaryScreen_of_screen_eq h3 h2

/-- Every cell of the framebuffer holds `0` or `1` after any number of in-range
passes of the execution loop started on a cleared screen. -/
theorem executionLoop_binary (keys : Nat → Nat → Int) (rnds : Nat → Nat) (n : Nat)
    (m0 : Machine) (hin : LoopInRange keys rnds n (cls m0)) :
    BinaryScreen (executionLoop keys rnds n (cls m0)) := by
  induction n with
  | zero => exact cls_binary m0
  | succ k ih =>
    rw [executionLoop_succ]
    exact loopPass_binary _ _ _ (hin k (by omega)) (ih (fun j hj => hin j (by omega)))

end Chip8
